import Mathlib

/-!
Verification of the rustonator game engine (Rust sources under `src/`).

The Rust code is shallowly embedded: machine integers `i32`/`i64`/`u32` become
`ℤ` or `ℕ` (no overflow occurs at the sizes involved), `f64` values that hold
exact dyadic quantities (tile sizes, half-tiles, explosion timers) become `ℚ`,
fallible lookups become `Option`, and the `rand` calls become explicit
parameters (a drawn value, or a list of draws threaded through the state).
Wall-clock timestamps (`Timestamp::new()` / `Timestamp::default()`) become an
explicit `now : ℤ` parameter.  Structures such as the websocket handle or the
serde ids that no verified property observes are omitted from the embedded
records.
-/

/-- Truncation of a rational towards zero, the semantics of Rust's `as i32`
cast on an `f64` value (no saturation is modelled: all values cast in the
verified code are small). -/
def ratTrunc (q : ℚ) : ℤ :=
  if 0 ≤ q then ⌊q⌋ else -⌊-q⌋

/-- The inclusive integer range `[lo, hi]` as a list, used to embed Rust
`lo..=hi` loops (and `lo..hi` as `[lo, hi-1]`). -/
def intRange (lo hi : ℤ) : List ℤ :=
  (List.range (hi - lo + 1).toNat).map (fun (i : ℕ) => lo + (i : ℤ))

/-- `src/engine/position.rs`: `PositionOffset`. -/
structure PositionOffset where
  x : ℤ
  y : ℤ
deriving DecidableEq, Repr

def PositionOffset.up (dist : ℤ) : PositionOffset := ⟨0, -dist⟩

def PositionOffset.down (dist : ℤ) : PositionOffset := ⟨0, dist⟩

def PositionOffset.left (dist : ℤ) : PositionOffset := ⟨-dist, 0⟩

def PositionOffset.right (dist : ℤ) : PositionOffset := ⟨dist, 0⟩

/-- `impl Mul<i32> for PositionOffset`. -/
def PositionOffset.scale (o : PositionOffset) (k : ℤ) : PositionOffset :=
  ⟨o.x * k, o.y * k⟩

/-- `src/engine/position.rs`: `MapPosition` (tile coordinates). -/
structure MapPosition where
  x : ℤ
  y : ℤ
deriving DecidableEq, Repr

/-- `impl Add<PositionOffset> for MapPosition`. -/
def MapPosition.add (p : MapPosition) (o : PositionOffset) : MapPosition :=
  ⟨p.x + o.x, p.y + o.y⟩

def MapPosition.up (p : MapPosition) (dist : ℤ) : MapPosition := ⟨p.x, p.y - dist⟩

def MapPosition.down (p : MapPosition) (dist : ℤ) : MapPosition := ⟨p.x, p.y + dist⟩

def MapPosition.left (p : MapPosition) (dist : ℤ) : MapPosition := ⟨p.x - dist, p.y⟩

def MapPosition.right (p : MapPosition) (dist : ℤ) : MapPosition := ⟨p.x + dist, p.y⟩

/-- Componentwise difference of two map positions (used by
`PathFindData::new_from`, `position - prev.position`). -/
def MapPosition.sub (p q : MapPosition) : PositionOffset := ⟨p.x - q.x, p.y - q.y⟩

/-- `src/engine/position.rs`: `SizeInTiles`. -/
structure SizeInTiles where
  width : ℤ
  height : ℤ
deriving DecidableEq, Repr

/-- `src/engine/position.rs`: `SizeInPixels`. -/
structure SizeInPixels where
  width : ℤ
  height : ℤ
deriving DecidableEq, Repr

/-- `src/traits/celltypes.rs`: `CellType` (the `u8` discriminants are given by
`cellTypeToU8`). -/
inductive CellType where
  | Empty
  | Wall
  | Mystery
  | ItemBomb
  | ItemRange
  | ItemRandom
  | MobSpawner
  | Bomb
deriving DecidableEq, Repr

/-- `CellType as u8` (the discriminant values from the Rust enum). -/
def cellTypeToU8 : CellType → ℕ
  | .Empty => 0
  | .Wall => 1
  | .Mystery => 2
  | .ItemBomb => 3
  | .ItemRange => 4
  | .ItemRandom => 5
  | .MobSpawner => 6
  | .Bomb => 100

/-- `impl From<u8> for CellType`; the Rust code panics on any other value, the
embedding returns `none` (no reachable world stores such a value). -/
def cellTypeFromU8 : ℕ → Option CellType
  | 0 => some .Empty
  | 1 => some .Wall
  | 2 => some .Mystery
  | 3 => some .ItemBomb
  | 4 => some .ItemRange
  | 5 => some .ItemRandom
  | 6 => some .MobSpawner
  | 7 => some .Bomb
  | 100 => some .Bomb
  | _ => none

/-- `src/engine/worlddata.rs`: `WorldData` — the flat `u8` cell grid with its
own copy of the dimensions. -/
structure WorldData where
  data : List ℕ
  width : ℤ
  height : ℤ
deriving DecidableEq, Repr

/-- `WorldData::new`: a `width*height` grid of zeroes. -/
def worldDataNew (width height : ℤ) : WorldData :=
  ⟨List.replicate (width * height).toNat 0, width, height⟩

/-- `WorldData::get_index`: flat index with bounds check. -/
def WorldData.getIndex (d : WorldData) (pos : MapPosition) : Option ℕ :=
  if pos.x < 0 ∨ pos.x ≥ d.width ∨ pos.y < 0 ∨ pos.y ≥ d.height then none
  else some ((pos.y * d.width) + pos.x).toNat

/-- `WorldData::get_at` (the in-bounds index never misses the backing vector,
so the `getD 0` default is never taken on well-formed grids). -/
def WorldData.getAt (d : WorldData) (pos : MapPosition) : Option ℕ :=
  (d.getIndex pos).map (fun i => d.data.getD i 0)

/-- `WorldData::set_at`. -/
def WorldData.setAt (d : WorldData) (pos : MapPosition) (value : ℕ) : WorldData :=
  match d.getIndex pos with
  | some i => { d with data := d.data.set i value }
  | none => d

/-- In-bounds predicate corresponding to `WorldData::get_index` succeeding. -/
def WorldData.inB (d : WorldData) (pos : MapPosition) : Prop :=
  0 ≤ pos.x ∧ pos.x < d.width ∧ 0 ≤ pos.y ∧ pos.y < d.height

instance (d : WorldData) (pos : MapPosition) : Decidable (d.inB pos) := by
  unfold WorldData.inB; infer_instance

/-- Well-formedness: the backing vector has exactly `width*height` entries
(`WorldData::new` establishes it and `set_at` preserves it). -/
def WorldData.WF (d : WorldData) : Prop :=
  d.data.length = (d.width * d.height).toNat

instance (d : WorldData) : Decidable d.WF := by
  unfold WorldData.WF; infer_instance

/-- `src/engine/worlddata.rs`: `InternalCellData`. -/
inductive InternalCellData where
  | Empty
  | Bomb (id : ℕ)
  | Explosion (id : ℕ)
deriving DecidableEq, Repr

/-- `src/engine/worlddata.rs`: `InternalWorldData` — per-cell bomb/explosion
references, same flat-grid layout as `WorldData`. -/
structure InternalWorldData where
  data : List InternalCellData
  width : ℤ
  height : ℤ
deriving DecidableEq, Repr

def internalWorldDataNew (width height : ℤ) : InternalWorldData :=
  ⟨List.replicate (width * height).toNat .Empty, width, height⟩

def InternalWorldData.getIndex (d : InternalWorldData) (pos : MapPosition) : Option ℕ :=
  if pos.x < 0 ∨ pos.x ≥ d.width ∨ pos.y < 0 ∨ pos.y ≥ d.height then none
  else some ((pos.y * d.width) + pos.x).toNat

def InternalWorldData.getAt (d : InternalWorldData) (pos : MapPosition) : Option InternalCellData :=
  (d.getIndex pos).map (fun i => d.data.getD i .Empty)

def InternalWorldData.setAt (d : InternalWorldData) (pos : MapPosition) (value : InternalCellData) :
    InternalWorldData :=
  match d.getIndex pos with
  | some i => { d with data := d.data.set i value }
  | none => d

/-- `src/engine/worlddata.rs`: `InternalMobData` — the per-cell danger map.
`src/engine/world.rs` reads it as `Option<Timestamp>` (`None` = no danger and
also out-of-bounds, the two are indistinguishable through `get_mob_data`), and
writes `Some`/`None`; the grid entries are therefore embedded as
`Option ℤ` with a flattening read, matching every use site in `world.rs`.
(`worlddata.rs` as checked in declares `Vec<Timestamp>` zero-initialised, which
does not even typecheck against those use sites; the `world.rs` reading is the
authoritative one.) -/
structure InternalMobData where
  data : List (Option ℤ)
  width : ℤ
  height : ℤ
deriving DecidableEq, Repr

def internalMobDataNew (width height : ℤ) : InternalMobData :=
  ⟨List.replicate (width * height).toNat none, width, height⟩

def InternalMobData.getIndex (d : InternalMobData) (pos : MapPosition) : Option ℕ :=
  if pos.x < 0 ∨ pos.x ≥ d.width ∨ pos.y < 0 ∨ pos.y ≥ d.height then none
  else some ((pos.y * d.width) + pos.x).toNat

/-- `InternalMobData::get_at`: the stored entry, `none` when out of bounds. -/
def InternalMobData.getAt (d : InternalMobData) (pos : MapPosition) : Option ℤ :=
  (d.getIndex pos).bind (fun i => d.data.getD i none)

def InternalMobData.setAt (d : InternalMobData) (pos : MapPosition) (value : Option ℤ) :
    InternalMobData :=
  match d.getIndex pos with
  | some i => { d with data := d.data.set i value }
  | none => d

def InternalMobData.inB (d : InternalMobData) (pos : MapPosition) : Prop :=
  0 ≤ pos.x ∧ pos.x < d.width ∧ 0 ≤ pos.y ∧ pos.y < d.height

instance (d : InternalMobData) (pos : MapPosition) : Decidable (d.inB pos) := by
  unfold InternalMobData.inB; infer_instance

def InternalMobData.WF (d : InternalMobData) : Prop :=
  d.data.length = (d.width * d.height).toNat

instance (d : InternalMobData) : Decidable d.WF := by
  unfold InternalMobData.WF; infer_instance

/-- `src/engine/worldzone.rs`: `WorldZone`. -/
structure WorldZone where
  position : MapPosition
  size : SizeInTiles
  numBlocks : ℤ
  numPlayers : ℤ
  blockQuota : ℤ
deriving DecidableEq, Repr

/-- `src/engine/worldzone.rs`: `WorldZoneData`. -/
structure WorldZoneData where
  zoneSize : SizeInTiles
  zonesAcross : ℕ
  zonesDown : ℕ
  zones : List WorldZone
deriving DecidableEq, Repr

/-- Inner `while zone_x < width_in_tiles` loop of `WorldZoneData::new`.  The
loop advances `zone_x` by `zone_width` each pass, so it performs at most
`width_in_tiles` iterations for `zone_width ≥ 1`; the fuel bound makes that
termination explicit. -/
def buildZoneRow (fuel : ℕ) (zoneWidth widthInTiles zoneY zheight : ℤ) (qf : ℚ) (zoneX : ℤ) :
    List WorldZone :=
  match fuel with
  | 0 => []
  | f + 1 =>
    if zoneX < widthInTiles then
      let zwidth := min (widthInTiles - zoneX) zoneWidth
      { position := ⟨zoneX, zoneY⟩, size := ⟨zwidth, zheight⟩, numBlocks := 0, numPlayers := 0,
        blockQuota := ratTrunc (((zwidth * zheight : ℤ) : ℚ) * qf) } ::
        buildZoneRow f zoneWidth widthInTiles zoneY zheight qf (zoneX + zoneWidth)
    else []

/-- Outer `while zone_y < height_in_tiles` loop of `WorldZoneData::new`,
returning the number of rows together with the row-major zone list. -/
def buildZoneRows (fuel : ℕ) (zoneWidth zoneHeight widthInTiles heightInTiles : ℤ) (qf : ℚ)
    (zoneY : ℤ) : ℕ × List WorldZone :=
  match fuel with
  | 0 => (0, [])
  | f + 1 =>
    if zoneY < heightInTiles then
      let zheight := min (heightInTiles - zoneY) zoneHeight
      let row := buildZoneRow (widthInTiles.toNat + 1) zoneWidth widthInTiles zoneY zheight qf 0
      let rest := buildZoneRows f zoneWidth zoneHeight widthInTiles heightInTiles qf
        (zoneY + zoneHeight)
      (rest.1 + 1, row ++ rest.2)
    else (0, [])

/-- `WorldZoneData::new` (`zones_across` is counted on the top row only, which
equals the length of the first row list). -/
def worldZoneDataNew (zoneWidth zoneHeight widthInTiles heightInTiles : ℤ) (quotaFactor : ℚ) :
    WorldZoneData :=
  let rows := buildZoneRows (heightInTiles.toNat + 1) zoneWidth zoneHeight widthInTiles
    heightInTiles quotaFactor 0
  let across := (buildZoneRow (widthInTiles.toNat + 1) zoneWidth widthInTiles 0
    (min heightInTiles zoneHeight) quotaFactor 0).length
  ⟨⟨zoneWidth, zoneHeight⟩, across, rows.1, rows.2⟩

/-- `src/engine/worldzone.rs`: `ZonePosition::from_map_position`. -/
def zonePositionFromMap (pos : MapPosition) (zoneSize : SizeInTiles) : MapPosition :=
  ⟨ratTrunc ((pos.x : ℚ) / (zoneSize.width : ℚ)), ratTrunc ((pos.y : ℚ) / (zoneSize.height : ℚ))⟩

/-- `WorldZoneData::get_zone_index`.  A negative `i32` index cast `as usize`
wraps to a huge value, always failing the `< len` check, hence `none`. -/
def WorldZoneData.getZoneIndex (z : WorldZoneData) (pos : MapPosition) : Option ℕ :=
  let idx := pos.y * (z.zonesAcross : ℤ) + pos.x
  if 0 ≤ idx ∧ idx.toNat < z.zones.length then some idx.toNat else none

def WorldZoneData.mapToZoneIndex (z : WorldZoneData) (pos : MapPosition) : Option ℕ :=
  z.getZoneIndex (zonePositionFromMap pos z.zoneSize)

/-- `WorldZoneData::add_block_at_map_xy`. -/
def WorldZoneData.addBlockAtMapXY (z : WorldZoneData) (pos : MapPosition) : WorldZoneData :=
  match z.mapToZoneIndex pos with
  | some i =>
    match z.zones.get? i with
    | some zn => { z with zones := z.zones.set i { zn with numBlocks := zn.numBlocks + 1 } }
    | none => z
  | none => z

/-- `WorldZoneData::del_block_at_map_xy`. -/
def WorldZoneData.delBlockAtMapXY (z : WorldZoneData) (pos : MapPosition) : WorldZoneData :=
  match z.mapToZoneIndex pos with
  | some i =>
    match z.zones.get? i with
    | some zn =>
      if zn.numBlocks > 0 then
        { z with zones := z.zones.set i { zn with numBlocks := zn.numBlocks - 1 } }
      else z
    | none => z
  | none => z

/-- `src/engine/config.rs`: `GameConfig` (800×600 defaults; `world.rs` reads
the two fields through its screen-size accessors). -/
structure GameConfig where
  screenX : ℕ
  screenY : ℕ
deriving DecidableEq, Repr

def gameConfigNew : GameConfig := ⟨800, 600⟩

def GameConfig.screenWidth (c : GameConfig) : ℕ := c.screenX

def GameConfig.screenHeight (c : GameConfig) : ℕ := c.screenY

/-- `src/engine/world.rs`: `WorldSize`. -/
structure WorldSize where
  mapSize : SizeInTiles
  tileSize : SizeInPixels
  chunkSize : SizeInTiles
deriving DecidableEq, Repr

/-- `WorldSize::new`: 32×32 tiles, width/height bumped to the next odd value,
chunk size derived from the screen size. -/
def worldSizeNew (width height : ℤ) (config : GameConfig) : WorldSize :=
  let tileWidth : ℤ := 32
  let tileHeight : ℤ := 32
  let mapWidth := if width % 2 = 0 then width + 1 else width
  let mapHeight := if height % 2 = 0 then height + 1 else height
  let chunkWidth := ratTrunc ((config.screenWidth : ℚ) / (tileWidth : ℚ)) + 10
  let chunkHeight := ratTrunc ((config.screenHeight : ℚ) / (tileHeight : ℚ)) + 10
  ⟨⟨mapWidth, mapHeight⟩, ⟨tileWidth, tileHeight⟩, ⟨chunkWidth, chunkHeight⟩⟩

/-- `src/engine/world.rs`: `World`. -/
structure World where
  sizes : WorldSize
  data : WorldData
  dataInternal : InternalWorldData
  dataMob : InternalMobData
  zones : WorldZoneData
deriving DecidableEq, Repr

/-- `World::get_cell` (`data.get_at(pos).map(CellType::from)`; the `From`
panic on an invalid byte becomes `none` via `cellTypeFromU8`). -/
def World.getCell (w : World) (pos : MapPosition) : Option CellType :=
  (w.data.getAt pos).bind cellTypeFromU8

/-- `World::set_cell`, including the Mystery-block zone accounting. -/
def World.setCell (w : World) (pos : MapPosition) (value : CellType) : World :=
  let z1 := if w.getCell pos = some CellType.Mystery then w.zones.delBlockAtMapXY pos else w.zones
  let z2 := if value = CellType.Mystery then z1.addBlockAtMapXY pos else z1
  { w with zones := z2, data := w.data.setAt pos (cellTypeToU8 value) }

/-- The un-walled world assembled at the top of `World::new` (note the Rust
code passes the *unbumped* `width`/`height` to every backing grid; only
`sizes.map_size` is bumped to odd). -/
def worldBase (width height : ℤ) (config : GameConfig) : World :=
  { sizes := worldSizeNew width height config
    data := worldDataNew width height
    dataInternal := internalWorldDataNew width height
    dataMob := internalMobDataNew width height
    zones := worldZoneDataNew 16 16 width height (1/5) }

/-- `World::new`: base world, then border walls, then the pillar lattice.
`set_cell` never alters `sizes`, so the loop bounds are the constants taken
from the base world's `map_size`. -/
def worldNew (width height : ℤ) (config : GameConfig) : World :=
  let w0 := worldBase width height config
  let mw := w0.sizes.mapSize.width
  let mh := w0.sizes.mapSize.height
  let w1 := (intRange 0 (mw - 1)).foldl
    (fun w x => (w.setCell ⟨x, 0⟩ .Wall).setCell ⟨x, mh - 1⟩ .Wall) w0
  (intRange 0 (mh - 1)).foldl
    (fun w y =>
      let w' := (w.setCell ⟨0, y⟩ .Wall).setCell ⟨mw - 1, y⟩ .Wall
      if y % 2 = 0 then
        (intRange 1 (ratTrunc ((mw : ℚ) / 2) - 1)).foldl
          (fun w2 x => w2.setCell ⟨x * 2, y⟩ .Wall) w'
      else w') w1

/-- Applying a batch of `set_cell(_, Wall)` writes (the wall-construction loops
of `World::new` all have this shape). -/
def applyWalls (w : World) (ps : List MapPosition) : World :=
  ps.foldl (fun w p => w.setCell p CellType.Wall) w

/-- The complete list of positions written as `Wall` by `World::new`, in
write order: top/bottom border row pairs, then for each row the two side
borders followed (on even rows) by the pillar columns. -/
def wallList (mw mh : ℤ) : List MapPosition :=
  ((intRange 0 (mw - 1)).flatMap (fun x => [⟨x, 0⟩, ⟨x, mh - 1⟩])) ++
  ((intRange 0 (mh - 1)).flatMap (fun y =>
    [⟨0, y⟩, ⟨mw - 1, y⟩] ++
      (if y % 2 = 0 then
        (intRange 1 (ratTrunc ((mw : ℚ) / 2) - 1)).map (fun x => ⟨x * 2, y⟩)
      else [])))

/-- `world.get_cell(p) == Some(CellType::Empty)` as a boolean test. -/
def World.isEmptyAt (w : World) (p : MapPosition) : Bool :=
  decide (w.getCell p = some CellType.Empty)

/-- The `// Top.` block of `World::find_nearest_blank`: scan the top edge of
the ring, skipping columns outside `(0, width-1)`, first empty wins. -/
def World.scanTop (w : World) (pos : MapPosition) (radius : ℤ) : Option MapPosition :=
  if pos.y - radius > 0 then
    (intRange (-radius) radius).findSome? (fun ox =>
      if pos.x + ox ≤ 0 ∨ pos.x + ox ≥ w.sizes.mapSize.width - 1 then none
      else
        if w.isEmptyAt (pos.add ⟨ox, -radius⟩) then some (pos.add ⟨ox, -radius⟩) else none)
  else none

/-- The `// Bottom.` block of `World::find_nearest_blank`. -/
def World.scanBottom (w : World) (pos : MapPosition) (radius : ℤ) : Option MapPosition :=
  if pos.y + radius < w.sizes.mapSize.height - 1 then
    (intRange (-radius) radius).findSome? (fun ox =>
      if pos.x + ox ≤ 0 ∨ pos.x + ox ≥ w.sizes.mapSize.width - 1 then none
      else
        if w.isEmptyAt (pos.add ⟨ox, radius⟩) then some (pos.add ⟨ox, radius⟩) else none)
  else none

/-- The `// Left.` block of `World::find_nearest_blank`. -/
def World.scanLeft (w : World) (pos : MapPosition) (radius : ℤ) : Option MapPosition :=
  if pos.x - radius > 0 then
    (intRange (-radius) radius).findSome? (fun oy =>
      if pos.y + oy ≤ 0 ∨ pos.y + oy ≥ w.sizes.mapSize.height - 1 then none
      else
        if w.isEmptyAt (pos.add ⟨-radius, oy⟩) then some (pos.add ⟨-radius, oy⟩) else none)
  else none

/-- The `// Right.` block of `World::find_nearest_blank`.  NOTE: the Rust body
builds `pos + PositionOffset::new(-radius, offset_y)` — the *left* column —
under the right-side bound check, and checks only the row bound `yy`; this is
embedded exactly as written. -/
def World.scanRight (w : World) (pos : MapPosition) (radius : ℤ) : Option MapPosition :=
  if pos.x + radius < w.sizes.mapSize.width - 1 then
    (intRange (-radius) radius).findSome? (fun oy =>
      if pos.y + oy ≤ 0 ∨ pos.y + oy ≥ w.sizes.mapSize.height - 1 then none
      else
        if w.isEmptyAt (pos.add ⟨-radius, oy⟩) then some (pos.add ⟨-radius, oy⟩) else none)
  else none

/-- `World::find_nearest_blank`: the starting cell when it is empty, otherwise
rings of radius `1..20` (i.e. 1 through 19), each scanned top, bottom, left,
right (early-return on the first empty cell), with fallback `(1,1)`. -/
def World.findNearestBlank (w : World) (pos : MapPosition) : MapPosition :=
  if w.isEmptyAt pos then pos
  else
    match (intRange 1 19).findSome? (fun radius =>
      ((w.scanTop pos radius).or ((w.scanBottom pos radius).or
        ((w.scanLeft pos radius).or (w.scanRight pos radius))))) with
    | some p => p
    | none => ⟨1, 1⟩

/-- Candidate cells of one ring of the scan, in test order, following the
spec's description amended to the code: top edge, bottom edge, left edge, and
the left-edge column once more under the right-side guard (without the column
bound check). -/
def ringCandidates (w : World) (pos : MapPosition) (radius : ℤ) : List MapPosition :=
  (if pos.y - radius > 0 then
    (intRange (-radius) radius).filterMap (fun ox =>
      if pos.x + ox ≤ 0 ∨ pos.x + ox ≥ w.sizes.mapSize.width - 1 then none
      else some (pos.add ⟨ox, -radius⟩))
   else []) ++
  ((if pos.y + radius < w.sizes.mapSize.height - 1 then
    (intRange (-radius) radius).filterMap (fun ox =>
      if pos.x + ox ≤ 0 ∨ pos.x + ox ≥ w.sizes.mapSize.width - 1 then none
      else some (pos.add ⟨ox, radius⟩))
   else []) ++
  ((if pos.x - radius > 0 then
    (intRange (-radius) radius).filterMap (fun oy =>
      if pos.y + oy ≤ 0 ∨ pos.y + oy ≥ w.sizes.mapSize.height - 1 then none
      else some (pos.add ⟨-radius, oy⟩))
   else []) ++
  (if pos.x + radius < w.sizes.mapSize.width - 1 then
    (intRange (-radius) radius).filterMap (fun oy =>
      if pos.y + oy ≤ 0 ∨ pos.y + oy ≥ w.sizes.mapSize.height - 1 then none
      else some (pos.add ⟨-radius, oy⟩))
   else [])))

/-- All candidate cells of the scan, rings of radius 1 through 19 in order. -/
def nearestBlankCandidates (w : World) (pos : MapPosition) : List MapPosition :=
  (intRange 1 19).flatMap (ringCandidates w pos)

/-- Spec-level restatement of the scan: first empty candidate, with the
`(1,1)` fallback. -/
def World.findNearestBlankSpec (w : World) (pos : MapPosition) : MapPosition :=
  if w.isEmptyAt pos then pos
  else ((nearestBlankCandidates w pos).find? w.isEmptyAt).getD ⟨1, 1⟩

/-- Border cells of the world's (bumped) map size. -/
def World.isBorder (w : World) (q : MapPosition) : Prop :=
  q.x = 0 ∨ q.y = 0 ∨ q.x = w.sizes.mapSize.width - 1 ∨ q.y = w.sizes.mapSize.height - 1

instance (w : World) (q : MapPosition) : Decidable (w.isBorder q) := by
  unfold World.isBorder
  infer_instance

/-- `src/engine/bomb.rs`: `Bomb` (`remaining` is the `BombTime` in seconds,
`range` the `BombRange`, `timestamp` the scheduled explosion time in ms). -/
structure Bomb where
  id : ℕ
  pid : ℕ
  pname : String
  active : Bool
  position : MapPosition
  remaining : ℚ
  range : ℕ
  timestamp : ℤ
deriving DecidableEq, Repr

/-- `Bomb::terminate`. -/
def Bomb.terminate (b : Bomb) : Bomb := { b with active := false }

/-- `src/engine/explosion.rs`: `Explosion`. -/
structure Explosion where
  id : ℕ
  pid : ℕ
  pname : String
  active : Bool
  position : MapPosition
  remaining : ℚ
  harmful : Bool
  timestamp : ℤ
deriving DecidableEq, Repr

/-- `Explosion::new(bomb, position)` — fresh explosion with 0.5 s remaining,
harmful, stamped with the current wall-clock time (the `now` parameter). -/
def explosionNew (bomb : Option Bomb) (position : MapPosition) (now : ℤ) : Explosion :=
  { id := 0
    pid := (bomb.map Bomb.pid).getD 0
    pname := (bomb.map Bomb.pname).getD ""
    active := true
    position := position
    remaining := 1/2
    harmful := true
    timestamp := now }

/-- `impl From<(Bomb, MapPosition)> for Explosion` as used by
`World::explode_bomb_path` (`Explosion::from((bomb.clone(), pos))`): the
owner data is taken from the bomb, the position from the second component. -/
def explosionFromBombPos (bomb : Bomb) (position : MapPosition) (now : ℤ) : Explosion :=
  { id := 0
    pid := bomb.pid
    pname := bomb.pname
    active := true
    position := position
    remaining := 1/2
    harmful := true
    timestamp := now }

/-- `Explosion::update(delta_time)`: subtract the frame time, drop `harmful`
once at most 0.3 s remain, deactivate (and clamp) once nothing remains. -/
def Explosion.update (e : Explosion) (deltaTime : ℚ) : Explosion :=
  let remaining := e.remaining - deltaTime
  let harmful := if remaining ≤ 3/10 then false else e.harmful
  if remaining ≤ 0 then { e with remaining := 0, harmful := harmful, active := false }
  else { e with remaining := remaining, harmful := harmful }

/-- A sequence of `Explosion::update` calls. -/
def Explosion.applyUpdates (e : Explosion) (ds : List ℚ) : Explosion :=
  ds.foldl Explosion.update e

/-- `src/engine/position.rs`: `PixelPosition<f64>` (all pixel values handled
by the verified conversions are exact dyadic rationals). -/
structure PixelPositionF64 where
  x : ℚ
  y : ℚ
deriving DecidableEq, Repr

/-- `PixelPosition::from_map_position`: the centre pixel of the tile. -/
def pixelFromMapPosition (pos : MapPosition) (w : World) : PixelPositionF64 :=
  let ts := w.sizes.tileSize
  ⟨(pos.x : ℚ) * (ts.width : ℚ) + (ts.width : ℚ) / 2,
   (pos.y : ℚ) * (ts.height : ℚ) + (ts.height : ℚ) / 2⟩

/-- `PixelPosition::to_map_position`: divide by the tile size and cast
`as i32` (truncation towards zero). -/
def PixelPositionF64.toMapPosition (p : PixelPositionF64) (w : World) : MapPosition :=
  ⟨ratTrunc (p.x / (w.sizes.tileSize.width : ℚ)),
   ratTrunc (p.y / (w.sizes.tileSize.height : ℚ))⟩

/-- `src/engine/player.rs`: `sanitise_name`.  The Rust code builds
`Regex::new` on the pattern  `^[^\w\s,._:'!^*()=\-]+$`  and calls
`replace_all(name, "")`, then truncates to 30 characters.  Because the
pattern is anchored at both ends, its only possible match is the whole
string, and it matches exactly when the string is nonempty and every one of
its characters lies outside the allowed classes (word characters `\w`,
whitespace `\s`, and the punctuation comma, dot, underscore, colon,
apostrophe, exclamation mark, caret, asterisk, parentheses, equals sign and
hyphen).  `\w` is modelled on its ASCII core (alphanumerics and underscore);
the inputs examined below are ASCII, where the model is exact. -/
def isWordChar (c : Char) : Bool := c.isAlphanum || c = '_'

def allowedPunct : List Char :=
  [',', '.', '_', ':', '\'', '!', '^', '*', '(', ')', '=', '-']

def isDisallowedChar (c : Char) : Bool :=
  !(isWordChar c || c.isWhitespace || allowedPunct.contains c)

def sanitiseName (name : String) : String :=
  let replaced := if name.length ≠ 0 ∧ name.toList.all isDisallowedChar then "" else name
  ⟨replaced.toList.take 30⟩

/-- `src/engine/mob.rs`: `MobTargetMode`. -/
inductive MobTargetMode where
  | NearbyCell
  | NearbyPlayer
  | Clockwise
  | Anticlockwise
  | ClockwiseNext
  | AnticlockwiseNext
  | DangerAvoidance
deriving DecidableEq, Repr

/-- `src/engine/mob.rs`: `MobTargetDir`. -/
inductive MobTargetDir where
  | Up
  | Right
  | Down
  | Left
deriving DecidableEq, Repr

/-- `src/engine/mob.rs`: `MobServerData`. -/
structure MobServerData where
  targetMode : MobTargetMode
  targetRemaining : ℚ
  targetPosition : MapPosition
  oldPosition : MapPosition
  targetPlayer : ℕ
  targetDir : MobTargetDir
  range : ℕ
  smart : Bool
  danger : Bool
deriving DecidableEq, Repr

/-- `src/engine/mob.rs`: `Mob` (the serde-only fields keep their defaults;
`action` is omitted, no verified property observes it). -/
structure Mob where
  id : ℕ
  active : Bool
  position : PixelPositionF64
  speed : ℚ
  image : String
  name : String
  serverData : MobServerData
deriving DecidableEq, Repr

/-- `impl Default for Mob` / `Mob::new`.  The birth draw
`rand::thread_rng().gen_range(0, 10)` is the `smartDraw` parameter (uniform
on `0..=9`); the mob is smart when the draw exceeds 7. -/
def mobDefault (smartDraw : ℕ) : Mob :=
  { id := 0
    active := true
    position := ⟨0, 0⟩
    speed := 60
    image := "mob1"
    name := ""
    serverData :=
      { targetMode := .NearbyCell
        targetRemaining := 0
        targetPosition := ⟨0, 0⟩
        oldPosition := ⟨0, 0⟩
        targetPlayer := 0
        targetDir := .Up
        range := 8
        smart := decide (smartDraw > 7)
        danger := false } }

/-- `World::get_mob_data`. -/
def World.getMobData (w : World) (pos : MapPosition) : Option ℤ :=
  w.dataMob.getAt pos

/-- `World::set_mob_data`: only write the timestamp when the cell holds
nothing, or holds a strictly later timestamp. -/
def World.setMobData (w : World) (pos : MapPosition) (timestamp : ℤ) : World :=
  match w.dataMob.getAt pos with
  | some ts =>
    if timestamp < ts then { w with dataMob := w.dataMob.setAt pos (some timestamp) } else w
  | none => { w with dataMob := w.dataMob.setAt pos (some timestamp) }

/-- `World::clear_mob_data`. -/
def World.clearMobData (w : World) (pos : MapPosition) : World :=
  { w with dataMob := w.dataMob.setAt pos none }

/-- `src/tools/itemstore.rs`: `ItemStore` — id-keyed storage with an
incrementing id counter (there is no id 0).  The backing `HashMap` is
modelled as an association list; insertion order is irrelevant to every
verified property. -/
structure ItemStore (α : Type) where
  items : List (ℕ × α)
  nextId : ℕ
deriving DecidableEq, Repr

def itemStoreNew {α : Type} : ItemStore α := ⟨[], 1⟩

/-- `ItemStore::add`: take the next id, stamp it on the item (`set_id`, here
the explicit `setId` argument), insert, and return the id. -/
def ItemStore.add {α : Type} (s : ItemStore α) (setId : α → ℕ → α) (item : α) :
    ℕ × ItemStore α :=
  let id := s.nextId
  (id, { items := s.items ++ [(id, setId item id)], nextId := s.nextId + 1 })

/-- `ItemStore::get`. -/
def ItemStore.get {α : Type} (s : ItemStore α) (id : ℕ) : Option α :=
  (s.items.find? (fun p => p.1 = id)).map Prod.snd

/-- `ItemStore::get_mut` followed by an in-place mutation `f`. -/
def ItemStore.modify {α : Type} (s : ItemStore α) (id : ℕ) (f : α → α) : ItemStore α :=
  { s with items := s.items.map (fun p => if p.1 = id then (p.1, f p.2) else p) }

/-- `ItemStore::retain`. -/
def ItemStore.retain {α : Type} (s : ItemStore α) (f : α → Bool) : ItemStore α :=
  { s with items := s.items.filter (fun p => f p.2) }

/-- `src/engine/player.rs`: `Player` — the fields the verified operations
read or write.  The connection handle, state machine, effects, flags and
serde-only fields are omitted: no claim observes them. -/
structure Player where
  id : ℕ
  position : PixelPositionF64
  speed : ℚ
  range : ℕ
  bombTime : ℚ
  maxBombs : ℕ
  curBombs : ℕ
  score : ℕ
  name : String
deriving DecidableEq, Repr

/-- `Player::has_bomb_remaining`. -/
def Player.hasBombRemaining (p : Player) : Bool := decide (p.curBombs < p.maxBombs)

/-- `Player::bomb_placed`. -/
def Player.bombPlaced (p : Player) : Player := { p with curBombs := p.curBombs + 1 }

/-- `Player::bomb_exploded` (saturating decrement). -/
def Player.bombExploded (p : Player) : Player :=
  if p.curBombs > 0 then { p with curBombs := p.curBombs - 1 } else p

/-- `PlayerList` (`HashMap<PlayerId, Player>`) as an association list. -/
def playersGet (ps : List (ℕ × Player)) (pid : ℕ) : Option Player :=
  (ps.find? (fun q => q.1 = pid)).map Prod.snd

/-- `players.get_mut(&pid)` followed by a mutation, a no-op when absent. -/
def playersModify (ps : List (ℕ × Player)) (pid : ℕ) (f : Player → Player) :
    List (ℕ × Player) :=
  ps.map (fun q => if q.1 = pid then (q.1, f q.2) else q)

/-- `Bomb::new`: owner data snapshot; the timestamp is the scheduled
explosion time `Timestamp::new() + player.bomb_time()` (`Add<BombTime>` adds
`bomb_time.millis() as i64`, and `BombTime::millis` returns the raw
seconds-valued `f64`, so 3.0 s adds 3 ms — embedded exactly as written). -/
def bombNew (player : Player) (position : MapPosition) (now : ℤ) : Bomb :=
  { id := 0
    pid := player.id
    pname := player.name
    active := true
    position := position
    remaining := player.bombTime
    range := player.range
    timestamp := now + ratTrunc player.bombTime }

/-- `World::clear_internal_cell`. -/
def World.clearInternalCell (w : World) (pos : MapPosition) : World :=
  { w with dataInternal := w.dataInternal.setAt pos .Empty }

/-- `World::add_explosion`: store the explosion, then point the internal cell
at its id. -/
def World.addExplosion (w : World) (e : Explosion) (explosions : ItemStore Explosion) :
    World × ItemStore Explosion :=
  let pos := e.position
  let r := explosions.add (fun ex id => { ex with id := id }) e
  ({ w with dataInternal := w.dataInternal.setAt pos (.Explosion r.1) }, r.2)

/-- One direction of the `update_bomb_path` walk (`for dist in 1..=range`):
positions already seen are skipped, bombs met on the way are queued for
following, pass-through cells are collected as path cells, and walls,
mystery blocks and out-of-bounds stop the ray.  Returns the grown seen set,
the queued bomb ids and the collected path cells, in walk order. -/
def bombPathRay (w : World) (b : Bomb) (off : PositionOffset) :
    ℕ → ℤ → List MapPosition → List MapPosition × List ℕ × List MapPosition
  | 0, _, seen => (seen, [], [])
  | rem + 1, dist, seen =>
    let pos := b.position.add (off.scale dist)
    if seen.contains pos then bombPathRay w b off rem (dist + 1) seen
    else
      let seen' := pos :: seen
      match w.getCell pos with
      | some .Bomb =>
        match w.dataInternal.getAt pos with
        | some (.Bomb bid) =>
          let r := bombPathRay w b off rem (dist + 1) seen'
          (r.1, bid :: r.2.1, r.2.2)
        | _ => bombPathRay w b off rem (dist + 1) seen'
      | some .Empty | some .ItemBomb | some .ItemRange | some .ItemRandom
      | some .MobSpawner =>
        let r := bombPathRay w b off rem (dist + 1) seen'
        (r.1, r.2.1, pos :: r.2.2)
      | some .Wall | some .Mystery | none => (seen', [], [])

/-- The four rays of one bomb in `update_bomb_path` order
(up, down, left, right), threading the seen set. -/
def bombPathBomb (w : World) (b : Bomb) (seen : List MapPosition) :
    List MapPosition × List ℕ × List MapPosition :=
  let r1 := bombPathRay w b (PositionOffset.up 1) b.range 1 seen
  let r2 := bombPathRay w b (PositionOffset.down 1) b.range 1 r1.1
  let r3 := bombPathRay w b (PositionOffset.left 1) b.range 1 r2.1
  let r4 := bombPathRay w b (PositionOffset.right 1) b.range 1 r3.1
  (r4.1, r1.2.1 ++ r2.2.1 ++ r3.2.1 ++ r4.2.1, r1.2.2 ++ r2.2.2 ++ r3.2.2 ++ r4.2.2)

/-- The `while let Some(bomb_id) = bombs_to_follow.pop_front()` loop of
`update_bomb_path`, collecting the earliest timestamp and all path cells.
Every queued bomb position enters the seen set when queued, so the queue
grows by at most one entry per stored bomb: the fuel
`bombs.items.length + 2` is sufficient. -/
def updateBombPathLoop (w : World) (bombs : ItemStore Bomb) :
    ℕ → List ℕ → List MapPosition → ℤ → List MapPosition → ℤ × List MapPosition
  | 0, _, _, earliest, pathCells => (earliest, pathCells)
  | _ + 1, [], _, earliest, pathCells => (earliest, pathCells)
  | f + 1, bid :: rest, seen, earliest, pathCells =>
    match bombs.get bid with
    | none => updateBombPathLoop w bombs f rest seen earliest pathCells
    | some b =>
      let earliest' := if b.timestamp < earliest then b.timestamp else earliest
      let r := bombPathBomb w b seen
      updateBombPathLoop w bombs f (rest ++ r.2.1) r.1 earliest' (pathCells ++ r.2.2)

/-- `World::update_bomb_path`: find the earliest explosion time along the
whole connected bomb path, then stamp it into the danger map at every
collected cell. -/
def World.updateBombPath (w : World) (bid : ℕ) (bombs : ItemStore Bomb) : World :=
  match bombs.get bid with
  | none => w
  | some b0 =>
    let r := updateBombPathLoop w bombs (bombs.items.length + 2) [bid] [b0.position]
      b0.timestamp []
    r.2.foldl (fun w pos => w.setMobData pos r.1) w

/-- `World::add_bomb`. -/
def World.addBomb (w : World) (bomb : Bomb) (bombs : ItemStore Bomb) :
    World × ItemStore Bomb :=
  let pos := bomb.position
  let r := bombs.add (fun b id => { b with id := id }) bomb
  let w1 := w.setCell pos .Bomb
  let w2 := w1.updateBombPath r.1 r.2
  ({ w2 with dataInternal := w2.dataInternal.setAt pos (.Bomb r.1) }, r.2)

/-- `RustonatorGame::create_bomb_for_player` (`src/game/maingame.rs`): place
a bomb at the player's tile when one is available and the tile is empty. -/
def createBombForPlayer (w : World) (bombs : ItemStore Bomb) (player : Player) (now : ℤ) :
    World × ItemStore Bomb × Player :=
  if player.hasBombRemaining then
    let pos := player.position.toMapPosition w
    if w.getCell pos = some .Empty then
      let bomb := bombNew player pos now
      let player' := player.bombPlaced
      let r := w.addBomb bomb bombs
      (r.1, r.2, player')
    else (w, bombs, player)
  else (w, bombs, player)

/-- One direction of `World::explode_bomb_path` (`for dist in 1..=range`):
bombs met cascade and stop the ray; items burn to `Empty` under an
explosion; empty cells and mob spawners get an explosion and the ray goes
on; a mystery block turns into the item selected by the next random draw
(`rd`, uniform in `[0,1)`) and stops the ray; walls and out-of-bounds stop
it silently. -/
def explodeRayAux (now : ℤ) (bomb : Bomb) (off : PositionOffset) :
    ℕ → ℤ → World → ItemStore Explosion → List ℚ →
    World × ItemStore Explosion × List ℚ × List ℕ
  | 0, _, w, ex, rand => (w, ex, rand, [])
  | rem + 1, dist, w, ex, rand =>
    let pos := bomb.position.add (off.scale dist)
    match w.getCell pos with
    | some .Bomb =>
      match w.dataInternal.getAt pos with
      | some (.Bomb bid) => (w, ex, rand, [bid])
      | _ =>
        let r := w.addExplosion (explosionFromBombPos bomb pos now) ex
        (r.1, r.2, rand, [])
    | some .ItemBomb | some .ItemRange | some .ItemRandom =>
      let r := w.addExplosion (explosionFromBombPos bomb pos now) ex
      explodeRayAux now bomb off rem (dist + 1) (r.1.setCell pos .Empty) r.2 rand
    | some .Empty | some .MobSpawner =>
      let r := w.addExplosion (explosionFromBombPos bomb pos now) ex
      explodeRayAux now bomb off rem (dist + 1) r.1 r.2 rand
    | some .Mystery =>
      let rd := rand.headD 0
      let item := if rd > 9/10 then CellType.ItemBomb
        else if rd > 8/10 then CellType.ItemRange
        else if rd > 1/2 then CellType.ItemRandom
        else CellType.Empty
      let r := w.addExplosion (explosionFromBombPos bomb pos now) ex
      (r.1.setCell pos item, r.2, rand.tail, [])
    | some .Wall | none => (w, ex, rand, [])

/-- `World::explode_bomb_path`: explosion at the bomb cell, then the four
rays in order (up, down, left, right); returns the cascading bomb ids. -/
def World.explodeBombPath (w : World) (bomb : Bomb) (explosions : ItemStore Explosion)
    (rand : List ℚ) (now : ℤ) : World × ItemStore Explosion × List ℚ × List ℕ :=
  let r0 := w.addExplosion (explosionFromBombPos bomb bomb.position now) explosions
  let r1 := explodeRayAux now bomb (PositionOffset.up 1) bomb.range 1 r0.1 r0.2 rand
  let r2 := explodeRayAux now bomb (PositionOffset.down 1) bomb.range 1 r1.1 r1.2.1 r1.2.2.1
  let r3 := explodeRayAux now bomb (PositionOffset.left 1) bomb.range 1 r2.1 r2.2.1 r2.2.2.1
  let r4 := explodeRayAux now bomb (PositionOffset.right 1) bomb.range 1 r3.1 r3.2.1 r3.2.2.1
  (r4.1, r4.2.1, r4.2.2.1,
    r1.2.2.2 ++ r2.2.2.2 ++ r3.2.2.2 ++ r4.2.2.2)

/-- The `while let Some(bomb_id) = bombs_to_explode.pop_front()` loop of
`World::explode_bomb`.  NOTE (faithful to the source): a popped id is looked
up with `get_mut` with no check of `is_active`, so an id queued twice is
processed twice.  `fuel` bounds the loop; the Rust loop terminates on real
states, and every verified statement holds for every fuel value. -/
def explodeBombLoop (now : ℤ) :
    ℕ → List ℕ → World → ItemStore Bomb → ItemStore Explosion → List (ℕ × Player) →
    List ℚ → World × ItemStore Bomb × ItemStore Explosion × List (ℕ × Player) × List ℚ
  | 0, _, w, bombs, explosions, players, rand => (w, bombs, explosions, players, rand)
  | _ + 1, [], w, bombs, explosions, players, rand => (w, bombs, explosions, players, rand)
  | f + 1, bid :: rest, w, bombs, explosions, players, rand =>
    match bombs.get bid with
    | none => explodeBombLoop now f rest w bombs explosions players rand
    | some b =>
      let w1 := if w.getCell b.position = some .Bomb then
          (w.setCell b.position .Empty).clearInternalCell b.position
        else w
      let r := w1.explodeBombPath b explosions rand now
      let players2 := playersModify players b.pid Player.bombExploded
      let bombs2 := bombs.modify bid Bomb.terminate
      explodeBombLoop now f (rest ++ r.2.2.2) r.1 bombs2 r.2.1 players2 r.2.2.1

/-- `World::explode_bomb`. -/
def World.explodeBomb (w : World) (fuel : ℕ) (bid : ℕ) (bombs : ItemStore Bomb)
    (explosions : ItemStore Explosion) (players : List (ℕ × Player)) (rand : List ℚ)
    (now : ℤ) :
    World × ItemStore Bomb × ItemStore Explosion × List (ℕ × Player) × List ℚ :=
  explodeBombLoop now fuel [bid] w bombs explosions players rand

/-- `src/engine/world.rs`: `PathFindData`. -/
structure PathFindData where
  position : MapPosition
  travelled : ℕ
  initialOffset : Option PositionOffset
deriving DecidableEq, Repr

/-- `PathFindData::new`. -/
def pathFindDataNew (position : MapPosition) : PathFindData := ⟨position, 0, none⟩

/-- `PathFindData::new_from`. -/
def pathFindDataNewFrom (position : MapPosition) (prev : PathFindData) : PathFindData :=
  ⟨position, prev.travelled + 1, prev.initialOffset.or (some (position.sub prev.position))⟩

/-- `World::get_possible_moves`: the four neighbours (up, right, down, left),
dropping seen cells and cells the agent cannot pass.  The generic
`T: CanPass` agent is the boolean function `agent`. -/
def World.getPossibleMoves (w : World) (agent : MapPosition → World → Bool)
    (pf : PathFindData) (seen : List MapPosition) : List PathFindData :=
  [pf.position.up 1, pf.position.right 1, pf.position.down 1, pf.position.left 1].filterMap
    (fun m =>
      if seen.contains m then none
      else if agent m w then some (pathFindDataNewFrom m pf) else none)

/-- Stable insertion by `travelled`: the inserted element goes in front of
the first element whose key is not smaller, so `sortByTravelled` keeps equal
keys in their original order, the behaviour of Rust's stable
`sort_by_cached_key`. -/
def insertByTravelled (x : PathFindData) : List PathFindData → List PathFindData
  | [] => [x]
  | y :: ys => if y.travelled < x.travelled then y :: insertByTravelled x ys else x :: y :: ys

def sortByTravelled : List PathFindData → List PathFindData
  | [] => []
  | x :: xs => insertByTravelled x (sortByTravelled xs)

/-- Result of one pass over the sorted open list in
`path_find_nearest_safe_space`: either an early return with a safe cell, or
the next loop state (`open_list.split_off(processed)` with the new moves
appended, the seen set, and the safest timestamp/cell fallback). -/
inductive SafeSearchStep where
  | found (pos : MapPosition)
  | cont (openL : List PathFindData) (seen : List MapPosition) (safestTs : ℤ)
      (safestPos : MapPosition)
deriving DecidableEq, Repr

/-- The `for element in &open_list` body of `path_find_nearest_safe_space`:
return on the first cell with no danger entry; otherwise track the cell with
the latest timestamp seen so far (strictly later ones only), mark the cell
seen, and — below `range` — break as soon as a processed element contributes
new moves. -/
def safeInner (w : World) (agent : MapPosition → World → Bool) (range : ℕ) :
    List PathFindData → List MapPosition → ℤ → MapPosition → SafeSearchStep
  | [], seen, st, sp => .cont [] seen st sp
  | e :: rest, seen, st, sp =>
    match w.getMobData e.position with
    | none => .found e.position
    | some ts =>
      let st' := if ts > st then ts else st
      let sp' := if ts > st then e.position else sp
      let seen' := e.position :: seen
      if e.travelled < range then
        let moves := w.getPossibleMoves agent e seen'
        if moves.isEmpty then safeInner w agent range rest seen' st' sp'
        else .cont (rest ++ moves) seen' st' sp'
      else safeInner w agent range rest seen' st' sp'

/-- The outer `while !open_list.is_empty()` loop: sort by travelled
distance, process, repeat.  The queue potential `Σ 5 ^ (range - travelled)`
strictly decreases on every pass (a processed entry of travelled `t` is
removed and contributes at most four new entries of travelled `t + 1`), so
the explicit fuel in `pathFindNearestSafeSpace`, which exceeds the initial
potential `5 ^ range`, is sufficient for the loop to run to completion;
every safety statement below also holds for every fuel value. -/
def safeOuter (w : World) (agent : MapPosition → World → Bool) (range : ℕ) :
    ℕ → List PathFindData → List MapPosition → ℤ → MapPosition → MapPosition
  | 0, _, _, _, sp => sp
  | f + 1, openL, seen, st, sp =>
    if openL.isEmpty then sp
    else
      match safeInner w agent range (sortByTravelled openL) seen st sp with
      | .found p => p
      | .cont openL' seen' st' sp' => safeOuter w agent range f openL' seen' st' sp'

/-- `World::path_find_nearest_safe_space`.  `Timestamp::default()` is the
wall-clock `now`; the starting safest cell is the start itself. -/
def World.pathFindNearestSafeSpace (w : World) (agent : MapPosition → World → Bool)
    (pos : MapPosition) (range : ℕ) (now : ℤ) : MapPosition :=
  if w.getMobData pos = none then pos
  else
    safeOuter w agent range (5 ^ range + range + 10)
      [pathFindDataNew pos] [pos] now pos

/-- Invariant of the safest-cell fallback: it is either the untouched start
(with the fallback timestamp still at `now`), or a cell whose danger
timestamp lies strictly after `now`. -/
def SafeInv (w : World) (pos0 : MapPosition) (now : ℤ) (st : ℤ) (sp : MapPosition) : Prop :=
  (sp = pos0 ∧ st = now) ∨ (w.getMobData sp = some st ∧ now < st)

/-- Potential of the open list: an entry of travelled `t` counts
`5 ^ (range - t)`.  Processing an entry removes its contribution and adds at
most four entries one step further travelled, so the potential strictly
decreases on every pass of the outer search loop. -/
def travelPotential (range : ℕ) (l : List PathFindData) : ℕ :=
  (l.map (fun e => 5 ^ (range - e.travelled))).sum

/-- Reachability invariant of the safe-space search along a walk
`p 0, p 1, …, p k`: some index `i ≤ k` has an open entry standing at `p i`
with travelled distance at most `i`, and no later cell of the walk has been
seen yet.  Processing preserves it (moving the index forward when the walk
cell itself is processed) until a safe cell is returned. -/
def SafeReachInv (k : ℕ) (p : ℕ → MapPosition) (openL : List PathFindData)
    (seen : List MapPosition) : Prop :=
  ∃ i, i ≤ k ∧ (∃ e ∈ openL, e.position = p i ∧ e.travelled ≤ i) ∧
    ∀ j, i < j → j ≤ k → p j ∉ seen

/-- Wall cells survive: every cell reading `Wall` in `w` still reads `Wall`
in the second world. -/
def wallsPreserved (w w' : World) : Prop :=
  ∀ p, w.getCell p = some CellType.Wall → w'.getCell p = some CellType.Wall

/-- Modelled from the spec: the powerup distribution when a detonation ray
opens a Mystery cell — ItemBomb when `r > 0.9`, ItemRange when
`0.8 < r ≤ 0.9`, ItemRandom when `0.5 < r ≤ 0.8`, Empty otherwise. -/
def mysteryItemSpec (r : ℚ) : CellType :=
  if r > 9/10 then .ItemBomb
  else if 8/10 < r ∧ r ≤ 9/10 then .ItemRange
  else if 1/2 < r ∧ r ≤ 8/10 then .ItemRandom
  else .Empty

/-- A 9×5 world that is all walls except a single empty cell at `(4,1)` —
one step to the right of `(3,1)`. -/
def cexWorldC3 : World :=
  { sizes := worldSizeNew 9 5 gameConfigNew
    data := ⟨[1, 1, 1, 1, 1, 1, 1, 1, 1,
               1, 1, 1, 1, 0, 1, 1, 1, 1,
               1, 1, 1, 1, 1, 1, 1, 1, 1,
               1, 1, 1, 1, 1, 1, 1, 1, 1,
               1, 1, 1, 1, 1, 1, 1, 1, 1], 9, 5⟩
    dataInternal := internalWorldDataNew 9 5
    dataMob := internalMobDataNew 9 5
    zones := worldZoneDataNew 16 16 9 5 (1/5) }

/-- A fully walled 5×5 world (no empty cell anywhere). -/
def cexWorldFW : World :=
  { sizes := worldSizeNew 5 5 gameConfigNew
    data := ⟨List.replicate 25 1, 5, 5⟩
    dataInternal := internalWorldDataNew 5 5
    dataMob := internalMobDataNew 5 5
    zones := worldZoneDataNew 16 16 5 5 (1/5) }

/-- The walled 5×3 world for the safe-space search: one open row `y = 1`
with cells `(1,1)`, `(2,1)`, `(3,1)`; danger timestamps `5`, `50`, `7` on
those cells (all in the past relative to the call time `100`). -/
def cexWorldC6 : World :=
  { sizes := worldSizeNew 5 3 gameConfigNew
    data := ⟨[1, 1, 1, 1, 1,
               1, 0, 0, 0, 1,
               1, 1, 1, 1, 1], 5, 3⟩
    dataInternal := internalWorldDataNew 5 3
    dataMob := ⟨[none, none, none, none, none,
                 none, some 5, some 50, some 7, none,
                 none, none, none, none, none], 5, 3⟩
    zones := worldZoneDataNew 16 16 5 3 (1/5) }

/-- A pass-through agent: any cell whose content is `Empty` (the mob
`can_pass` restricted to the cells this world contains). -/
def cexAgentC6 (p : MapPosition) (w : World) : Bool := w.isEmptyAt p

/-- Like `cexWorldC6` but with a safe (danger-free) cell at `(2,1)`, one
step from the endangered start `(1,1)`. -/
def cexWorldC6b : World :=
  { sizes := worldSizeNew 5 3 gameConfigNew
    data := ⟨[1, 1, 1, 1, 1,
               1, 0, 0, 0, 1,
               1, 1, 1, 1, 1], 5, 3⟩
    dataInternal := internalWorldDataNew 5 3
    dataMob := ⟨[none, none, none, none, none,
                 none, some 5, none, none, none,
                 none, none, none, none, none], 5, 3⟩
    zones := worldZoneDataNew 16 16 5 3 (1/5) }

/-- The 9×5 world of the cascade scenario: one open row `y = 1` holding
bombs at `(2,1)` (id 2, range 4), `(4,1)` (id 1, range 2) and `(6,1)`
(id 3, range 1), and an open row `y = 3` holding a fourth bomb at `(1,3)`
(id 4, range 1), all owned by player 7. -/
def cexWorldC1 : World :=
  { sizes := worldSizeNew 9 5 gameConfigNew
    data := ⟨[1, 1, 1, 1, 1, 1, 1, 1, 1,
               1, 0, 100, 0, 100, 0, 100, 0, 1,
               1, 0, 1, 0, 1, 0, 1, 0, 1,
               1, 100, 0, 0, 0, 0, 0, 0, 1,
               1, 1, 1, 1, 1, 1, 1, 1, 1], 9, 5⟩
    dataInternal := ((((internalWorldDataNew 9 5).setAt ⟨2, 1⟩ (.Bomb 2)).setAt ⟨4, 1⟩
      (.Bomb 1)).setAt ⟨6, 1⟩ (.Bomb 3)).setAt ⟨1, 3⟩ (.Bomb 4)
    dataMob := internalMobDataNew 9 5
    zones := worldZoneDataNew 16 16 9 5 (1/5) }

def cexBombsC1 : ItemStore Bomb :=
  ⟨[(1, ⟨1, 7, "", true, ⟨4, 1⟩, 0, 2, 100⟩),
    (2, ⟨2, 7, "", true, ⟨2, 1⟩, 0, 4, 100⟩),
    (3, ⟨3, 7, "", true, ⟨6, 1⟩, 0, 1, 100⟩),
    (4, ⟨4, 7, "", true, ⟨1, 3⟩, 0, 1, 200⟩)], 5⟩

def cexPlayersC1 : List (ℕ × Player) :=
  [(7, ⟨7, ⟨48, 48⟩, 200, 1, 3, 4, 4, 0, ""⟩)]

/-- Live (active) bombs whose owner is `pid`. -/
def countLiveBombsOwnedBy (bombs : ItemStore Bomb) (pid : ℕ) : ℕ :=
  (bombs.items.filter (fun q => q.2.active && decide (q.2.pid = pid))).length

/-- The 5×3 world with a Mystery block at `(2,1)`, right next to a bomb
standing at `(1,1)`. -/
def cexWorldC7 : World :=
  { sizes := worldSizeNew 5 3 gameConfigNew
    data := ⟨[1, 1, 1, 1, 1,
               1, 0, 2, 0, 1,
               1, 1, 1, 1, 1], 5, 3⟩
    dataInternal := internalWorldDataNew 5 3
    dataMob := internalMobDataNew 5 3
    zones := worldZoneDataNew 16 16 5 3 (1/5) }

def cexBombC7 : Bomb := ⟨1, 7, "", true, ⟨1, 1⟩, 0, 1, 100⟩

def cexPlayerC4 : Player := ⟨7, ⟨48, 48⟩, 200, 1, 3, 1, 0, 0, ""⟩

theorem mem_intRange {lo hi a : ℤ} : a ∈ intRange lo hi ↔ lo ≤ a ∧ a ≤ hi := by
  unfold intRange
  rw [List.mem_map]
  constructor
  · rintro ⟨i, hmem, rfl⟩
    rw [List.mem_range] at hmem
    omega
  · intro ⟨h1, h2⟩
    exact ⟨(a - lo).toNat, by rw [List.mem_range]; omega, by omega⟩

theorem WorldData.getIndex_eq_none {d : WorldData} {p : MapPosition} :
    d.getIndex p = none ↔ ¬ d.inB p := by
  unfold WorldData.getIndex WorldData.inB
  split <;> simp_all <;> omega

theorem WorldData.getIndex_eq_some {d : WorldData} {p : MapPosition} (h : d.inB p) :
    d.getIndex p = some ((p.y * d.width) + p.x).toNat := by
  unfold WorldData.getIndex
  rw [if_neg]
  unfold WorldData.inB at h
  omega

theorem rowcol_inj {w x1 y1 x2 y2 : ℤ} (hx1 : 0 ≤ x1) (hx1' : x1 < w)
    (hx2 : 0 ≤ x2) (hx2' : x2 < w) (h : y1 * w + x1 = y2 * w + x2) :
    x1 = x2 ∧ y1 = y2 := by
  have hy : y1 = y2 := by
    by_contra hne
    rcases lt_or_gt_of_ne hne with hlt | hgt
    · have h1 : (y1 + 1) * w ≤ y2 * w :=
        mul_le_mul_of_nonneg_right (by omega) (by omega)
      rw [add_mul, one_mul] at h1
      omega
    · have h1 : (y2 + 1) * w ≤ y1 * w :=
        mul_le_mul_of_nonneg_right (by omega) (by omega)
      rw [add_mul, one_mul] at h1
      omega
  refine ⟨?_, hy⟩
  subst hy
  omega

theorem rowcol_lt {w h x y : ℤ} (hx : 0 ≤ x) (hx' : x < w) (hy : 0 ≤ y) (hy' : y < h) :
    y * w + x < w * h := by
  have h1 : (y + 1) * w ≤ h * w :=
    mul_le_mul_of_nonneg_right (by omega) (by omega)
  rw [add_mul, one_mul] at h1
  rw [mul_comm w h]
  omega

theorem WorldData.length_setAt (d : WorldData) (p : MapPosition) (v : ℕ) :
    (d.setAt p v).data.length = d.data.length := by
  unfold WorldData.setAt
  cases d.getIndex p <;> simp

theorem WorldData.dims_setAt (d : WorldData) (p : MapPosition) (v : ℕ) :
    (d.setAt p v).width = d.width ∧ (d.setAt p v).height = d.height := by
  unfold WorldData.setAt
  cases d.getIndex p <;> simp

theorem WorldData.WF_setAt {d : WorldData} (hWF : d.WF) (p : MapPosition) (v : ℕ) :
    (d.setAt p v).WF := by
  unfold WorldData.WF at *
  rcases d.dims_setAt p v with ⟨h1, h2⟩
  rw [d.length_setAt p v, h1, h2]
  exact hWF

/-- Reading after writing: a write to `p` is seen exactly at `p` (when `p` is
in bounds), and nowhere else. -/
theorem WorldData.getAt_setAt {d : WorldData} (hWF : d.WF) (p q : MapPosition) (v : ℕ) :
    (d.setAt p v).getAt q = if q = p ∧ d.inB p then some v else d.getAt q := by
  by_cases hp : d.inB p
  · have hip := WorldData.getIndex_eq_some hp
    obtain ⟨a, b, c, e⟩ := hp
    have hwpos : 0 < d.width := by omega
    have hset : d.setAt p v = { d with data := d.data.set ((p.y * d.width) + p.x).toNat v } := by
      unfold WorldData.setAt
      rw [hip]
    rw [hset]
    by_cases hq : d.inB q
    · have hiq : ({ d with data := d.data.set ((p.y * d.width) + p.x).toNat v } : WorldData).getIndex q
          = some ((q.y * d.width) + q.x).toNat := WorldData.getIndex_eq_some hq
      obtain ⟨a', b', c', e'⟩ := hq
      unfold WorldData.getAt
      rw [hiq, WorldData.getIndex_eq_some ⟨a', b', c', e'⟩]
      simp only [Option.map_some']
      have hnnp : 0 ≤ p.y * d.width := mul_nonneg c (le_of_lt hwpos)
      have hnnq : 0 ≤ q.y * d.width := mul_nonneg c' (le_of_lt hwpos)
      by_cases hqp : q = p
      · subst hqp
        rw [if_pos ⟨rfl, ⟨a, b, c, e⟩⟩]
        have hlt : ((q.y * d.width) + q.x).toNat < d.data.length := by
          rw [hWF]
          have := rowcol_lt a b c e
          omega
        congr 1
        rw [List.getD_eq_getElem?_getD, List.getElem?_set, if_pos rfl, if_pos hlt]
        rfl
      · rw [if_neg (fun h => hqp h.1)]
        congr 1
        have hne : ((p.y * d.width) + p.x).toNat ≠ ((q.y * d.width) + q.x).toNat := by
          intro hEq
          apply hqp
          have hZ : (q.y * d.width) + q.x = (p.y * d.width) + p.x := by omega
          obtain ⟨hx, hy⟩ := rowcol_inj a' b' a b hZ
          cases p
          cases q
          simp_all
        rw [List.getD_eq_getElem?_getD, List.getElem?_set, if_neg hne,
          ← List.getD_eq_getElem?_getD]
    · unfold WorldData.getAt
      rw [WorldData.getIndex_eq_none.mpr hq,
        show ({ d with data := d.data.set ((p.y * d.width) + p.x).toNat v } : WorldData).getIndex q = none
          from WorldData.getIndex_eq_none.mpr hq]
      rw [if_neg]
      · rfl
      · rintro ⟨rfl, _⟩
        exact hq ⟨a, b, c, e⟩
  · have hset : d.setAt p v = d := by
      unfold WorldData.setAt
      rw [WorldData.getIndex_eq_none.mpr hp]
    rw [hset, if_neg (fun h => hp h.2)]

theorem InternalMobData.mobIndex_eq_none {d : InternalMobData} {p : MapPosition} :
    d.getIndex p = none ↔ ¬ d.inB p := by
  unfold InternalMobData.getIndex InternalMobData.inB
  split <;> simp_all <;> omega

theorem InternalMobData.mobIndex_eq_some {d : InternalMobData} {p : MapPosition} (h : d.inB p) :
    d.getIndex p = some ((p.y * d.width) + p.x).toNat := by
  unfold InternalMobData.getIndex
  rw [if_neg]
  unfold InternalMobData.inB at h
  omega

theorem InternalMobData.mobGetAt_setAt {d : InternalMobData} (hWF : d.WF) (p q : MapPosition)
    (v : Option ℤ) :
    (d.setAt p v).getAt q = if q = p ∧ d.inB p then v else d.getAt q := by
  by_cases hp : d.inB p
  · have hip := InternalMobData.mobIndex_eq_some hp
    obtain ⟨a, b, c, e⟩ := hp
    have hwpos : 0 < d.width := by omega
    have hset : d.setAt p v = { d with data := d.data.set ((p.y * d.width) + p.x).toNat v } := by
      unfold InternalMobData.setAt
      rw [hip]
    rw [hset]
    by_cases hq : d.inB q
    · have hiq : ({ d with data := d.data.set ((p.y * d.width) + p.x).toNat v } : InternalMobData).getIndex q
          = some ((q.y * d.width) + q.x).toNat := InternalMobData.mobIndex_eq_some hq
      obtain ⟨a', b', c', e'⟩ := hq
      unfold InternalMobData.getAt
      rw [hiq, InternalMobData.mobIndex_eq_some ⟨a', b', c', e'⟩]
      simp only [Option.some_bind]
      have hnnp : 0 ≤ p.y * d.width := mul_nonneg c (le_of_lt hwpos)
      have hnnq : 0 ≤ q.y * d.width := mul_nonneg c' (le_of_lt hwpos)
      by_cases hqp : q = p
      · subst hqp
        rw [if_pos ⟨rfl, ⟨a, b, c, e⟩⟩]
        have hlt : ((q.y * d.width) + q.x).toNat < d.data.length := by
          rw [hWF]
          have := rowcol_lt a b c e
          omega
        rw [List.getD_eq_getElem?_getD, List.getElem?_set, if_pos rfl, if_pos hlt]
        rfl
      · rw [if_neg (fun h => hqp h.1)]
        have hne : ((p.y * d.width) + p.x).toNat ≠ ((q.y * d.width) + q.x).toNat := by
          intro hEq
          apply hqp
          have hZ : (q.y * d.width) + q.x = (p.y * d.width) + p.x := by omega
          obtain ⟨hx, hy⟩ := rowcol_inj a' b' a b hZ
          cases p
          cases q
          simp_all
        rw [List.getD_eq_getElem?_getD, List.getElem?_set, if_neg hne,
          ← List.getD_eq_getElem?_getD]
    · unfold InternalMobData.getAt
      rw [InternalMobData.mobIndex_eq_none.mpr hq,
        show ({ d with data := d.data.set ((p.y * d.width) + p.x).toNat v } : InternalMobData).getIndex q = none
          from InternalMobData.mobIndex_eq_none.mpr hq]
      rw [if_neg]
      · rfl
      · rintro ⟨rfl, _⟩
        exact hq ⟨a, b, c, e⟩
  · have hset : d.setAt p v = d := by
      unfold InternalMobData.setAt
      rw [InternalMobData.mobIndex_eq_none.mpr hp]
    rw [hset, if_neg (fun h => hp h.2)]

theorem cellTypeFromU8_toU8 (v : CellType) : cellTypeFromU8 (cellTypeToU8 v) = some v := by
  cases v <;> rfl

theorem World.data_setCell (w : World) (p : MapPosition) (v : CellType) :
    (w.setCell p v).data = w.data.setAt p (cellTypeToU8 v) := rfl

theorem World.sizes_setCell (w : World) (p : MapPosition) (v : CellType) :
    (w.setCell p v).sizes = w.sizes := rfl

theorem World.inB_setCell (w : World) (p q : MapPosition) (v : CellType) :
    (w.setCell p v).data.inB q ↔ w.data.inB q := by
  unfold WorldData.inB
  rw [World.data_setCell]
  rcases w.data.dims_setAt p (cellTypeToU8 v) with ⟨h1, h2⟩
  rw [h1, h2]

theorem World.WF_setCell {w : World} (hWF : w.data.WF) (p : MapPosition) (v : CellType) :
    (w.setCell p v).data.WF := by
  rw [World.data_setCell]
  exact WorldData.WF_setAt hWF p (cellTypeToU8 v)

/-- Reading a cell after `set_cell`. -/
theorem World.getCell_setCell {w : World} (hWF : w.data.WF) (p q : MapPosition) (v : CellType) :
    (w.setCell p v).getCell q = if q = p ∧ w.data.inB p then some v else w.getCell q := by
  unfold World.getCell
  rw [World.data_setCell, WorldData.getAt_setAt hWF]
  by_cases h : q = p ∧ w.data.inB p
  · rw [if_pos h, if_pos h, Option.some_bind, cellTypeFromU8_toU8]
  · rw [if_neg h, if_neg h]

theorem applyWalls_nil (w : World) : applyWalls w [] = w := rfl

theorem applyWalls_append (w : World) (l1 l2 : List MapPosition) :
    applyWalls w (l1 ++ l2) = applyWalls (applyWalls w l1) l2 :=
  List.foldl_append _ _ l1 l2

theorem World.WF_applyWalls {w : World} (hWF : w.data.WF) (ps : List MapPosition) :
    (applyWalls w ps).data.WF := by
  induction ps generalizing w with
  | nil => exact hWF
  | cons p ps ih => exact ih (World.WF_setCell hWF p .Wall)

theorem World.dims_applyWalls (w : World) (ps : List MapPosition) :
    (applyWalls w ps).data.width = w.data.width ∧
      (applyWalls w ps).data.height = w.data.height := by
  induction ps generalizing w with
  | nil => exact ⟨rfl, rfl⟩
  | cons p ps ih =>
    rcases ih (w.setCell p .Wall) with ⟨h1, h2⟩
    rw [show applyWalls w (p :: ps) = applyWalls (w.setCell p .Wall) ps from rfl]
    rw [h1, h2, World.data_setCell]
    rcases w.data.dims_setAt p (cellTypeToU8 .Wall) with ⟨h3, h4⟩
    exact ⟨h3, h4⟩

theorem World.getCell_applyWalls {w : World} (hWF : w.data.WF) (ps : List MapPosition)
    (q : MapPosition) :
    (applyWalls w ps).getCell q =
      if q ∈ ps ∧ w.data.inB q then some .Wall else w.getCell q := by
  induction ps generalizing w with
  | nil =>
    rw [applyWalls_nil, if_neg]
    rintro ⟨h, _⟩
    exact List.not_mem_nil q h
  | cons p ps ih =>
    rw [show applyWalls w (p :: ps) = applyWalls (w.setCell p .Wall) ps from rfl]
    rw [ih (World.WF_setCell hWF p .Wall)]
    simp only [World.inB_setCell]
    rw [World.getCell_setCell hWF]
    by_cases h1 : q ∈ ps ∧ w.data.inB q
    · rw [if_pos h1, if_pos ⟨List.mem_cons_of_mem p h1.1, h1.2⟩]
    · rw [if_neg h1]
      by_cases h2 : q = p ∧ w.data.inB p
      · obtain ⟨rfl, hb⟩ := h2
        rw [if_pos ⟨rfl, hb⟩, if_pos ⟨List.mem_cons_self q ps, hb⟩]
      · rw [if_neg h2, if_neg]
        rintro ⟨hmem, hinb⟩
        rcases List.mem_cons.mp hmem with rfl | hmem'
        · exact h2 ⟨rfl, hinb⟩
        · exact h1 ⟨hmem', hinb⟩

theorem foldl_eq_applyWalls {α : Type} (G : α → List MapPosition) (body : World → α → World)
    (hbody : ∀ w a, body w a = applyWalls w (G a)) (l : List α) (w : World) :
    l.foldl body w = applyWalls w (l.flatMap G) := by
  induction l generalizing w with
  | nil => rfl
  | cons a l ih =>
    rw [List.foldl_cons, hbody, List.flatMap_cons, applyWalls_append]
    exact ih (applyWalls w (G a))

theorem foldl_setCell_eq_applyWalls (f : ℤ → MapPosition) (l : List ℤ) (w : World) :
    l.foldl (fun w x => w.setCell (f x) .Wall) w = applyWalls w (l.map f) := by
  induction l generalizing w with
  | nil => rfl
  | cons a l ih =>
    rw [List.foldl_cons, List.map_cons,
      show applyWalls w (f a :: l.map f) = applyWalls (w.setCell (f a) .Wall) (l.map f) from rfl]
    exact ih (w.setCell (f a) .Wall)

theorem worldNew_eq_applyWalls (width height : ℤ) (config : GameConfig) :
    worldNew width height config = applyWalls (worldBase width height config)
      (wallList ((worldSizeNew width height config).mapSize.width)
        ((worldSizeNew width height config).mapSize.height)) := by
  have hsz : (worldBase width height config).sizes = worldSizeNew width height config := rfl
  unfold worldNew wallList
  dsimp only []
  rw [hsz]
  set mw := (worldSizeNew width height config).mapSize.width with hmw
  set mh := (worldSizeNew width height config).mapSize.height with hmh
  rw [applyWalls_append]
  rw [foldl_eq_applyWalls (fun x => [⟨x, 0⟩, ⟨x, mh - 1⟩])
    (fun w x => (w.setCell ⟨x, 0⟩ .Wall).setCell ⟨x, mh - 1⟩ .Wall) (fun w x => rfl)]
  rw [foldl_eq_applyWalls (fun y =>
      [⟨0, y⟩, ⟨mw - 1, y⟩] ++
        (if y % 2 = 0 then
          (intRange 1 (ratTrunc ((mw : ℚ) / 2) - 1)).map (fun x => ⟨x * 2, y⟩)
        else []))]
  intro w y
  rw [applyWalls_append]
  by_cases hy : y % 2 = 0
  · rw [if_pos hy, if_pos hy, foldl_setCell_eq_applyWalls]
    rfl
  · rw [if_neg hy, if_neg hy]
    rfl

theorem WF_worldBase (width height : ℤ) (config : GameConfig) :
    (worldBase width height config).data.WF := by
  unfold worldBase worldDataNew WorldData.WF
  simp

theorem getCell_worldBase (width height : ℤ) (config : GameConfig) (q : MapPosition) :
    (worldBase width height config).getCell q =
      if (worldBase width height config).data.inB q then some .Empty else none := by
  by_cases h : (worldBase width height config).data.inB q
  · rw [if_pos h]
    have hidx := WorldData.getIndex_eq_some h
    obtain ⟨a, b, c, e⟩ := h
    unfold World.getCell WorldData.getAt
    rw [hidx]
    have hwpos : (0 : ℤ) < width := by
      simp only [worldBase, worldDataNew] at b
      omega
    have hnn : 0 ≤ q.y * width := mul_nonneg c (le_of_lt hwpos)
    have hlt : ((q.y * (worldBase width height config).data.width) + q.x).toNat
        < (width * height).toNat := by
      simp only [worldBase, worldDataNew] at b e ⊢
      have := rowcol_lt a b c e
      omega
    simp only [worldBase, worldDataNew] at hlt ⊢
    simp only [Option.map_some']
    rw [List.getD_eq_getElem?_getD, List.getElem?_replicate, if_pos (by simpa using hlt)]
    rfl
  · rw [if_neg h]
    unfold World.getCell WorldData.getAt
    rw [WorldData.getIndex_eq_none.mpr h]
    rfl

theorem ratTrunc_odd_half {k : ℤ} (hk : 0 ≤ k) :
    ratTrunc (((2 * k + 1 : ℤ) : ℚ) / 2) = k := by
  have hval : ((2 * k + 1 : ℤ) : ℚ) / 2 = (1 / 2 : ℚ) + (k : ℚ) := by
    push_cast
    ring
  unfold ratTrunc
  rw [if_pos (by rw [hval]; positivity)]
  rw [hval, show ((k : ℚ)) = ((k : ℤ) : ℚ) from by norm_cast, Int.floor_add_int]
  norm_num

theorem findSome?_filterMap {α β γ : Type} (f : α → Option β) (g : β → Option γ)
    (l : List α) :
    (l.filterMap f).findSome? g = l.findSome? (fun a => (f a).bind g) := by
  induction l with
  | nil => rfl
  | cons a l ih =>
    rw [List.filterMap_cons]
    cases hfa : f a with
    | none =>
      rw [List.findSome?_cons, hfa]
      exact ih
    | some b =>
      rw [List.findSome?_cons, List.findSome?_cons, hfa]
      simp only [Option.some_bind]
      cases g b <;> simp [ih]

theorem findSome?_eq_find? {α : Type} (p : α → Bool) (l : List α) :
    l.findSome? (fun a => if p a then some a else none) = l.find? p := by
  induction l with
  | nil => rfl
  | cons a l ih =>
    rw [List.findSome?_cons, List.find?_cons]
    by_cases hpa : p a
    · rw [if_pos hpa]
      simp [hpa]
    · rw [if_neg hpa]
      simp only [Bool.not_eq_true] at hpa
      simp [hpa, ih]

theorem findSome?_flatMap {α β γ : Type} (G : α → List β) (g : β → Option γ) (l : List α) :
    (l.flatMap G).findSome? g = l.findSome? (fun a => (G a).findSome? g) := by
  induction l with
  | nil => rfl
  | cons a l ih =>
    rw [List.flatMap_cons, List.findSome?_append, List.findSome?_cons]
    cases (G a).findSome? g <;> simp [ih]

theorem edge_findSome_eq {α : Type} (emp : MapPosition → Bool) (guard : Prop) [Decidable guard]
    (c : α → Prop) [DecidablePred c] (pf : α → MapPosition) (range : List α) :
    (if guard then
      range.findSome? (fun o => if c o then none else (if emp (pf o) then some (pf o) else none))
    else none)
    = (if guard then range.filterMap (fun o => if c o then none else some (pf o))
      else []).find? emp := by
  by_cases hg : guard
  · rw [if_pos hg, if_pos hg, ← findSome?_eq_find? emp, findSome?_filterMap]
    congr 1
    funext o
    by_cases hc : c o
    · rw [if_pos hc, if_pos hc]
      rfl
    · rw [if_neg hc, if_neg hc, Option.some_bind]
  · rw [if_neg hg, if_neg hg]
    rfl

theorem ring_or_eq (w : World) (pos : MapPosition) (radius : ℤ) :
    ((w.scanTop pos radius).or ((w.scanBottom pos radius).or
      ((w.scanLeft pos radius).or (w.scanRight pos radius))))
    = (ringCandidates w pos radius).find? w.isEmptyAt := by
  unfold ringCandidates
  rw [List.find?_append, List.find?_append, List.find?_append]
  rw [show w.scanTop pos radius =
      (if pos.y - radius > 0 then
        (intRange (-radius) radius).filterMap (fun ox =>
          if pos.x + ox ≤ 0 ∨ pos.x + ox ≥ w.sizes.mapSize.width - 1 then none
          else some (pos.add ⟨ox, -radius⟩))
      else []).find? w.isEmptyAt from edge_findSome_eq _ _ _ _ _]
  rw [show w.scanBottom pos radius =
      (if pos.y + radius < w.sizes.mapSize.height - 1 then
        (intRange (-radius) radius).filterMap (fun ox =>
          if pos.x + ox ≤ 0 ∨ pos.x + ox ≥ w.sizes.mapSize.width - 1 then none
          else some (pos.add ⟨ox, radius⟩))
      else []).find? w.isEmptyAt from edge_findSome_eq _ _ _ _ _]
  rw [show w.scanLeft pos radius =
      (if pos.x - radius > 0 then
        (intRange (-radius) radius).filterMap (fun oy =>
          if pos.y + oy ≤ 0 ∨ pos.y + oy ≥ w.sizes.mapSize.height - 1 then none
          else some (pos.add ⟨-radius, oy⟩))
      else []).find? w.isEmptyAt from edge_findSome_eq _ _ _ _ _]
  rw [show w.scanRight pos radius =
      (if pos.x + radius < w.sizes.mapSize.width - 1 then
        (intRange (-radius) radius).filterMap (fun oy =>
          if pos.y + oy ≤ 0 ∨ pos.y + oy ≥ w.sizes.mapSize.height - 1 then none
          else some (pos.add ⟨-radius, oy⟩))
      else []).find? w.isEmptyAt from edge_findSome_eq _ _ _ _ _]

theorem findNearestBlank_eq_spec (w : World) (pos : MapPosition) :
    w.findNearestBlank pos = w.findNearestBlankSpec pos := by
  unfold World.findNearestBlank World.findNearestBlankSpec
  by_cases h : w.isEmptyAt pos
  · rw [if_pos h, if_pos h]
  · rw [if_neg h, if_neg h]
    have hloop : (intRange 1 19).findSome? (fun radius =>
        ((w.scanTop pos radius).or ((w.scanBottom pos radius).or
          ((w.scanLeft pos radius).or (w.scanRight pos radius)))))
        = (nearestBlankCandidates w pos).find? w.isEmptyAt := by
      unfold nearestBlankCandidates
      rw [← findSome?_eq_find?, findSome?_flatMap]
      congr 1
      funext radius
      rw [findSome?_eq_find?]
      exact ring_or_eq w pos radius
    rw [hloop]
    cases (nearestBlankCandidates w pos).find? w.isEmptyAt <;> rfl

theorem findNearestBlank_not_border (w : World) (pos : MapPosition)
    (hw : 3 ≤ w.sizes.mapSize.width) (hh : 3 ≤ w.sizes.mapSize.height)
    (hb : ∀ q, w.isBorder q → w.isEmptyAt q = false) :
    ¬ w.isBorder (w.findNearestBlank pos) := by
  rw [findNearestBlank_eq_spec]
  unfold World.findNearestBlankSpec
  by_cases h : w.isEmptyAt pos
  · rw [if_pos h]
    intro hB
    rw [hb pos hB] at h
    exact Bool.noConfusion h
  · rw [if_neg h]
    cases hfind : (nearestBlankCandidates w pos).find? w.isEmptyAt with
    | some p =>
      simp only [Option.getD_some]
      intro hB
      have hemp := List.find?_some hfind
      rw [hb p hB] at hemp
      exact Bool.noConfusion hemp
    | none =>
      simp only [Option.getD_none]
      unfold World.isBorder
      rintro (h1 | h1 | h1 | h1) <;>
        simp only [show ({ x := 1, y := 1 } : MapPosition).x = 1 from rfl,
          show ({ x := 1, y := 1 } : MapPosition).y = 1 from rfl] at h1 <;>
        omega

theorem mem_wallList {width height : ℤ} (hok : width % 2 = 1) (hw : 1 ≤ width)
    (hh : 1 ≤ height) {q : MapPosition} (h0x : 0 ≤ q.x) (hxw : q.x < width)
    (h0y : 0 ≤ q.y) (hyh : q.y < height)
    (hwall : q.x = 0 ∨ q.y = 0 ∨ q.x = width - 1 ∨ q.y = height - 1 ∨
      (q.x % 2 = 0 ∧ q.y % 2 = 0)) :
    q ∈ wallList width height := by
  unfold wallList
  rw [List.mem_append]
  obtain ⟨qx, qy⟩ := q
  dsimp only at h0x hxw h0y hyh hwall
  by_cases hy0 : qy = 0
  · left
    rw [List.mem_flatMap]
    refine ⟨qx, mem_intRange.mpr ⟨h0x, by omega⟩, ?_⟩
    rw [hy0]
    exact List.mem_cons_self _ _
  · by_cases hyh1 : qy = height - 1
    · left
      rw [List.mem_flatMap]
      refine ⟨qx, mem_intRange.mpr ⟨h0x, by omega⟩, ?_⟩
      rw [hyh1]
      exact List.mem_cons_of_mem _ (List.mem_cons_self _ _)
    · by_cases hx0 : qx = 0
      · right
        rw [List.mem_flatMap]
        refine ⟨qy, mem_intRange.mpr ⟨h0y, by omega⟩, ?_⟩
        rw [List.mem_append]
        left
        rw [hx0]
        exact List.mem_cons_self _ _
      · by_cases hxw1 : qx = width - 1
        · right
          rw [List.mem_flatMap]
          refine ⟨qy, mem_intRange.mpr ⟨h0y, by omega⟩, ?_⟩
          rw [List.mem_append]
          left
          rw [hxw1]
          exact List.mem_cons_of_mem _ (List.mem_cons_self _ _)
        · have hpill : qx % 2 = 0 ∧ qy % 2 = 0 := by
            rcases hwall with h | h | h | h | h
            · omega
            · omega
            · omega
            · omega
            · exact h
          right
          rw [List.mem_flatMap]
          refine ⟨qy, mem_intRange.mpr ⟨h0y, by omega⟩, ?_⟩
          rw [List.mem_append]
          right
          rw [if_pos hpill.2, List.mem_map]
          refine ⟨qx / 2, ?_, ?_⟩
          · rw [mem_intRange]
            have hk : ratTrunc ((width : ℚ) / 2) = (width - 1) / 2 := by
              set k := (width - 1) / 2 with hkdef
              rw [show width = 2 * k + 1 from by omega, ratTrunc_odd_half (by omega)]
            rw [hk]
            omega
          · rw [show qx / 2 * 2 = qx from by omega]

/-- Characterisation of the freshly constructed world: for odd dimensions,
all border cells and all even-column/even-row cells read back as `Wall`. -/
theorem getCell_worldNew_wall (width height : ℤ) (config : GameConfig)
    (hok : width % 2 = 1) (hok' : height % 2 = 1) (hw : 1 ≤ width) (hh : 1 ≤ height)
    (q : MapPosition) (h0x : 0 ≤ q.x) (hxw : q.x < width) (h0y : 0 ≤ q.y) (hyh : q.y < height)
    (hwall : q.x = 0 ∨ q.y = 0 ∨ q.x = width - 1 ∨ q.y = height - 1 ∨
      (q.x % 2 = 0 ∧ q.y % 2 = 0)) :
    (worldNew width height config).getCell q = some CellType.Wall := by
  have hmap : (worldSizeNew width height config).mapSize = ⟨width, height⟩ := by
    unfold worldSizeNew
    dsimp only
    rw [if_neg (by omega), if_neg (by omega)]
  rw [worldNew_eq_applyWalls, hmap]
  rw [World.getCell_applyWalls (WF_worldBase width height config)]
  rw [if_pos ⟨mem_wallList hok hw hh h0x hxw h0y hyh hwall,
    show (worldBase width height config).data.inB q from ⟨h0x, hxw, h0y, hyh⟩⟩]

theorem World.sizes_applyWalls (w : World) (ps : List MapPosition) :
    (applyWalls w ps).sizes = w.sizes := by
  induction ps generalizing w with
  | nil => rfl
  | cons p ps ih => exact ih (w.setCell p .Wall)

theorem sizes_worldNew (width height : ℤ) (config : GameConfig) :
    (worldNew width height config).sizes = worldSizeNew width height config := by
  rw [worldNew_eq_applyWalls, World.sizes_applyWalls]
  rfl

/-- One step of the explosion timer invariant. -/
theorem Explosion.update_state {e : Explosion} {t : ℚ} (ht : 0 ≤ t)
    (hrem : e.remaining = max 0 (1/2 - t))
    (hharm : e.harmful = decide (t < 1/5))
    (hact : e.active = decide (t < 1/2))
    {δ : ℚ} (hδ : 0 ≤ δ) :
    (e.update δ).remaining = max 0 (1/2 - (t + δ)) ∧
    (e.update δ).harmful = decide (t + δ < 1/5) ∧
    (e.update δ).active = decide (t + δ < 1/2) := by
  have hdrem : (e.update δ).remaining =
      (if e.remaining - δ ≤ 0 then 0 else e.remaining - δ) := by
    unfold Explosion.update
    dsimp only
    split <;> rfl
  have hdharm : (e.update δ).harmful =
      (if e.remaining - δ ≤ 3/10 then false else e.harmful) := by
    unfold Explosion.update
    dsimp only
    split <;> rfl
  have hdact : (e.update δ).active =
      (if e.remaining - δ ≤ 0 then false else e.active) := by
    unfold Explosion.update
    dsimp only
    split <;> rfl
  refine ⟨?_, ?_, ?_⟩
  · rw [hdrem, hrem]
    by_cases hc : 1/2 - t ≤ 0
    · rw [max_eq_left hc, if_pos (by linarith), max_eq_left (by linarith)]
    · push_neg at hc
      rw [max_eq_right (by linarith)]
      by_cases hc2 : 1/2 - t - δ ≤ 0
      · rw [if_pos (by linarith), max_eq_left (by linarith)]
      · push_neg at hc2
        rw [if_neg (by linarith), max_eq_right (by linarith)]
        ring
  · rw [hdharm, hrem, hharm]
    by_cases hc : 1/2 - t ≤ 0
    · rw [max_eq_left hc, if_pos (by linarith)]
      symm
      rw [decide_eq_false_iff_not]
      intro hcon
      linarith
    · push_neg at hc
      rw [max_eq_right (by linarith)]
      by_cases hc2 : 1/2 - t - δ ≤ 3/10
      · rw [if_pos (by linarith)]
        symm
        rw [decide_eq_false_iff_not]
        intro hcon
        linarith
      · push_neg at hc2
        rw [if_neg (by linarith)]
        have h1 : t + δ < 1/5 := by linarith
        have h2 : t < 1/5 := by linarith
        rw [decide_eq_true h2, decide_eq_true h1]
  · rw [hdact, hrem, hact]
    by_cases hc : 1/2 - t ≤ 0
    · rw [max_eq_left hc, if_pos (by linarith)]
      symm
      rw [decide_eq_false_iff_not]
      intro hcon
      linarith
    · push_neg at hc
      rw [max_eq_right (by linarith)]
      by_cases hc2 : 1/2 - t - δ ≤ 0
      · rw [if_pos (by linarith)]
        symm
        rw [decide_eq_false_iff_not]
        intro hcon
        linarith
      · push_neg at hc2
        rw [if_neg (by linarith)]
        have h1 : t + δ < 1/2 := by linarith
        have h2 : t < 1/2 := by linarith
        rw [decide_eq_true h2, decide_eq_true h1]

/-- Invariant over any sequence of nonnegative frame times. -/
theorem Explosion.applyUpdates_state (ds : List ℚ) (hds : ∀ δ ∈ ds, 0 ≤ δ)
    {e : Explosion} {t : ℚ} (ht : 0 ≤ t)
    (hrem : e.remaining = max 0 (1/2 - t))
    (hharm : e.harmful = decide (t < 1/5))
    (hact : e.active = decide (t < 1/2)) :
    (e.applyUpdates ds).remaining = max 0 (1/2 - (t + ds.sum)) ∧
    (e.applyUpdates ds).harmful = decide (t + ds.sum < 1/5) ∧
    (e.applyUpdates ds).active = decide (t + ds.sum < 1/2) := by
  induction ds generalizing e t with
  | nil =>
    simp only [Explosion.applyUpdates, List.foldl_nil, List.sum_nil, add_zero]
    exact ⟨hrem, hharm, hact⟩
  | cons δ ds ih =>
    have hδ : 0 ≤ δ := hds δ (List.mem_cons_self δ ds)
    obtain ⟨h1, h2, h3⟩ := Explosion.update_state ht hrem hharm hact hδ
    have := ih (fun x hx => hds x (List.mem_cons_of_mem δ hx)) (by linarith : 0 ≤ t + δ) h1 h2 h3
    simpa [Explosion.applyUpdates, List.sum_cons, add_assoc, add_comm, add_left_comm] using this

theorem ratTrunc_intCast_add_half {n : ℤ} (hn : 0 ≤ n) :
    ratTrunc ((n : ℚ) + 1/2) = n := by
  unfold ratTrunc
  rw [if_pos (by positivity)]
  rw [add_comm, Int.floor_add_int]
  norm_num

/-- After `set_mob_data` the entry holds the minimum of the new and the old
timestamp (the new one when the cell was clear). -/
theorem getMobData_setMobData {w : World} (hWF : w.dataMob.WF) (pos : MapPosition)
    (hin : w.dataMob.inB pos) (ts : ℤ) :
    (w.setMobData pos ts).getMobData pos =
      some (match w.getMobData pos with
        | none => ts
        | some t0 => min ts t0) := by
  unfold World.setMobData World.getMobData
  cases hget : w.dataMob.getAt pos with
  | none =>
    show ({ w with dataMob := w.dataMob.setAt pos (some ts) } : World).dataMob.getAt pos = _
    rw [InternalMobData.mobGetAt_setAt hWF, if_pos ⟨rfl, hin⟩]
  | some t0 =>
    dsimp only
    by_cases hlt : ts < t0
    · rw [if_pos hlt]
      show ({ w with dataMob := w.dataMob.setAt pos (some ts) } : World).dataMob.getAt pos = _
      rw [InternalMobData.mobGetAt_setAt hWF, if_pos ⟨rfl, hin⟩]
      rw [min_eq_left (le_of_lt hlt)]
    · rw [if_neg hlt]
      push_neg at hlt
      show w.dataMob.getAt pos = some (min ts t0)
      rw [hget, min_eq_right hlt]

theorem safeInner_inv (w : World) (agent : MapPosition → World → Bool) (range : ℕ)
    (pos0 : MapPosition) (now : ℤ) :
    ∀ (openL : List PathFindData) (seen : List MapPosition) (st : ℤ) (sp : MapPosition),
      SafeInv w pos0 now st sp →
      (∀ p, safeInner w agent range openL seen st sp = .found p → w.getMobData p = none) ∧
      (∀ o s st' sp', safeInner w agent range openL seen st sp = .cont o s st' sp' →
        SafeInv w pos0 now st' sp') := by
  intro openL
  induction openL with
  | nil =>
    intro seen st sp hinv
    constructor
    · intro p hp
      unfold safeInner at hp
      simp at hp
    · intro o s st' sp' hc
      unfold safeInner at hc
      cases hc
      exact hinv
  | cons e rest ih =>
    intro seen st sp hinv
    have hst_now : now ≤ st := by
      rcases hinv with ⟨_, h⟩ | ⟨_, h⟩
      · omega
      · omega
    constructor
    · intro p hp
      unfold safeInner at hp
      cases hmd : w.getMobData e.position with
      | none =>
        rw [hmd] at hp
        cases hp
        exact hmd
      | some ts =>
        rw [hmd] at hp
        dsimp only at hp
        have hinv' : SafeInv w pos0 now (if ts > st then ts else st)
            (if ts > st then e.position else sp) := by
          by_cases hgt : ts > st
          · rw [if_pos hgt, if_pos hgt]
            exact Or.inr ⟨hmd, lt_of_le_of_lt hst_now hgt⟩
          · rw [if_neg hgt, if_neg hgt]
            exact hinv
        by_cases htrav : e.travelled < range
        · rw [if_pos htrav] at hp
          by_cases hme : (w.getPossibleMoves agent e (e.position :: seen)).isEmpty
          · rw [if_pos hme] at hp
            exact (ih _ _ _ hinv').1 p hp
          · rw [if_neg hme] at hp
            cases hp
        · rw [if_neg htrav] at hp
          exact (ih _ _ _ hinv').1 p hp
    · intro o s st' sp' hc
      unfold safeInner at hc
      cases hmd : w.getMobData e.position with
      | none =>
        rw [hmd] at hc
        cases hc
      | some ts =>
        rw [hmd] at hc
        dsimp only at hc
        have hinv' : SafeInv w pos0 now (if ts > st then ts else st)
            (if ts > st then e.position else sp) := by
          by_cases hgt : ts > st
          · rw [if_pos hgt, if_pos hgt]
            exact Or.inr ⟨hmd, lt_of_le_of_lt hst_now hgt⟩
          · rw [if_neg hgt, if_neg hgt]
            exact hinv
        by_cases htrav : e.travelled < range
        · rw [if_pos htrav] at hc
          by_cases hme : (w.getPossibleMoves agent e (e.position :: seen)).isEmpty
          · rw [if_pos hme] at hc
            exact (ih _ _ _ hinv').2 o s st' sp' hc
          · rw [if_neg hme] at hc
            cases hc
            exact hinv'
        · rw [if_neg htrav] at hc
          exact (ih _ _ _ hinv').2 o s st' sp' hc

theorem safeOuter_result (w : World) (agent : MapPosition → World → Bool) (range : ℕ)
    (pos0 : MapPosition) (now : ℤ) :
    ∀ (fuel : ℕ) (openL : List PathFindData) (seen : List MapPosition) (st : ℤ)
      (sp : MapPosition), SafeInv w pos0 now st sp →
      (safeOuter w agent range fuel openL seen st sp = pos0 ∨
       w.getMobData (safeOuter w agent range fuel openL seen st sp) = none ∨
       ∃ ts, w.getMobData (safeOuter w agent range fuel openL seen st sp) = some ts ∧
         now < ts) := by
  intro fuel
  induction fuel with
  | zero =>
    intro openL seen st sp hinv
    rcases hinv with ⟨h, _⟩ | ⟨h1, h2⟩
    · exact Or.inl h
    · exact Or.inr (Or.inr ⟨st, h1, h2⟩)
  | succ f ih =>
    intro openL seen st sp hinv
    unfold safeOuter
    by_cases hempty : openL.isEmpty
    · rw [if_pos hempty]
      rcases hinv with ⟨h, _⟩ | ⟨h1, h2⟩
      · exact Or.inl h
      · exact Or.inr (Or.inr ⟨st, h1, h2⟩)
    · rw [if_neg hempty]
      cases hstep : safeInner w agent range (sortByTravelled openL) seen st sp with
      | found p =>
        exact Or.inr (Or.inl
          ((safeInner_inv w agent range pos0 now _ _ _ _ hinv).1 p hstep))
      | cont o s st' sp' =>
        exact ih o s st' sp'
          ((safeInner_inv w agent range pos0 now _ _ _ _ hinv).2 o s st' sp' hstep)

/-- Characterisation of `path_find_nearest_safe_space`: a safe start is
returned at once, and in general the returned cell is the start, a cell with
no danger entry, or a cell whose danger timestamp is strictly after the
call time. -/
theorem pathFindNearestSafeSpace_cases (w : World) (agent : MapPosition → World → Bool)
    (pos : MapPosition) (range : ℕ) (now : ℤ) :
    (w.getMobData pos = none → w.pathFindNearestSafeSpace agent pos range now = pos) ∧
    (w.pathFindNearestSafeSpace agent pos range now = pos ∨
     w.getMobData (w.pathFindNearestSafeSpace agent pos range now) = none ∨
     ∃ ts, w.getMobData (w.pathFindNearestSafeSpace agent pos range now) = some ts ∧
       now < ts) := by
  constructor
  · intro h
    unfold World.pathFindNearestSafeSpace
    rw [if_pos h]
  · unfold World.pathFindNearestSafeSpace
    by_cases h : w.getMobData pos = none
    · rw [if_pos h]
      exact Or.inl rfl
    · rw [if_neg h]
      exact safeOuter_result w agent range pos now _ _ _ _ _ (Or.inl ⟨rfl, rfl⟩)

theorem mem_insertByTravelled (x : PathFindData) (l : List PathFindData) (a : PathFindData) :
    a ∈ insertByTravelled x l ↔ a = x ∨ a ∈ l := by
  induction l with
  | nil => simp [insertByTravelled]
  | cons y ys ih =>
    unfold insertByTravelled
    by_cases h : y.travelled < x.travelled
    · rw [if_pos h]
      rw [List.mem_cons, ih, List.mem_cons]
      tauto
    · rw [if_neg h]
      rw [List.mem_cons, List.mem_cons]

theorem mem_sortByTravelled (l : List PathFindData) (a : PathFindData) :
    a ∈ sortByTravelled l ↔ a ∈ l := by
  induction l with
  | nil => simp [sortByTravelled]
  | cons x xs ih =>
    unfold sortByTravelled
    rw [mem_insertByTravelled, ih, List.mem_cons]

theorem sorted_insertByTravelled (x : PathFindData) (l : List PathFindData)
    (h : l.Pairwise (fun a b => a.travelled ≤ b.travelled)) :
    (insertByTravelled x l).Pairwise (fun a b => a.travelled ≤ b.travelled) := by
  induction l with
  | nil => simp [insertByTravelled]
  | cons y ys ih =>
    unfold insertByTravelled
    rw [List.pairwise_cons] at h
    by_cases hxy : y.travelled < x.travelled
    · rw [if_pos hxy]
      rw [List.pairwise_cons]
      refine ⟨?_, ih h.2⟩
      intro b hb
      rw [mem_insertByTravelled] at hb
      rcases hb with rfl | hb
      · omega
      · exact h.1 b hb
    · rw [if_neg hxy]
      rw [List.pairwise_cons]
      refine ⟨?_, List.pairwise_cons.mpr h⟩
      intro b hb
      rw [List.mem_cons] at hb
      rcases hb with rfl | hb
      · omega
      · have := h.1 b hb
        omega

theorem sorted_sortByTravelled (l : List PathFindData) :
    (sortByTravelled l).Pairwise (fun a b => a.travelled ≤ b.travelled) := by
  induction l with
  | nil => simp [sortByTravelled]
  | cons x xs ih => exact sorted_insertByTravelled x (sortByTravelled xs) ih

theorem travelPotential_nil (range : ℕ) : travelPotential range [] = 0 := rfl

theorem travelPotential_cons (range : ℕ) (e : PathFindData) (l : List PathFindData) :
    travelPotential range (e :: l) = 5 ^ (range - e.travelled) + travelPotential range l := rfl

theorem travelPotential_append (range : ℕ) (l1 l2 : List PathFindData) :
    travelPotential range (l1 ++ l2) = travelPotential range l1 + travelPotential range l2 := by
  unfold travelPotential
  rw [List.map_append, List.sum_append]

theorem travelPotential_insertByTravelled (range : ℕ) (x : PathFindData)
    (l : List PathFindData) :
    travelPotential range (insertByTravelled x l)
      = 5 ^ (range - x.travelled) + travelPotential range l := by
  induction l with
  | nil => rfl
  | cons y ys ih =>
    unfold insertByTravelled
    by_cases h : y.travelled < x.travelled
    · rw [if_pos h]
      rw [travelPotential_cons, ih, travelPotential_cons]
      omega
    · rw [if_neg h]
      rw [travelPotential_cons, travelPotential_cons]

theorem travelPotential_sortByTravelled (range : ℕ) (l : List PathFindData) :
    travelPotential range (sortByTravelled l) = travelPotential range l := by
  induction l with
  | nil => rfl
  | cons x xs ih =>
    unfold sortByTravelled
    rw [travelPotential_insertByTravelled, ih, travelPotential_cons]

theorem getPossibleMoves_travelled (w : World) (agent : MapPosition → World → Bool)
    (pf : PathFindData) (seen : List MapPosition) :
    ∀ e ∈ w.getPossibleMoves agent pf seen, e.travelled = pf.travelled + 1 := by
  intro e he
  unfold World.getPossibleMoves at he
  rw [List.mem_filterMap] at he
  obtain ⟨m, _, hf⟩ := he
  by_cases h1 : seen.contains m
  · rw [if_pos h1] at hf
    cases hf
  · rw [if_neg h1] at hf
    by_cases h2 : agent m w = true
    · rw [if_pos h2] at hf
      cases hf
      rfl
    · rw [if_neg h2] at hf
      cases hf

theorem length_getPossibleMoves_le (w : World) (agent : MapPosition → World → Bool)
    (pf : PathFindData) (seen : List MapPosition) :
    (w.getPossibleMoves agent pf seen).length ≤ 4 := by
  unfold World.getPossibleMoves
  exact List.length_filterMap_le _ _

theorem travelPotential_of_const (range c : ℕ) :
    ∀ (l : List PathFindData), (∀ e ∈ l, e.travelled = c) →
      travelPotential range l = l.length * 5 ^ (range - c) := by
  intro l
  induction l with
  | nil => intro _; simp [travelPotential]
  | cons e es ih =>
    intro h
    rw [travelPotential_cons, h e (List.mem_cons_self e es),
      ih (fun e' he' => h e' (List.mem_cons_of_mem e he')), List.length_cons]
    ring

theorem travelPotential_getPossibleMoves_le (range : ℕ) (w : World)
    (agent : MapPosition → World → Bool) (pf : PathFindData) (seen : List MapPosition) :
    travelPotential range (w.getPossibleMoves agent pf seen)
      ≤ 4 * 5 ^ (range - (pf.travelled + 1)) := by
  rw [travelPotential_of_const range (pf.travelled + 1) _
    (getPossibleMoves_travelled w agent pf seen)]
  exact Nat.mul_le_mul_right _ (length_getPossibleMoves_le w agent pf seen)

theorem mem_getPossibleMoves (w : World) (agent : MapPosition → World → Bool)
    (pf : PathFindData) (seen : List MapPosition) (m : MapPosition)
    (hm : m ∈ [pf.position.up 1, pf.position.right 1, pf.position.down 1, pf.position.left 1])
    (hseen : ¬ m ∈ seen) (hagent : agent m w = true) :
    pathFindDataNewFrom m pf ∈ w.getPossibleMoves agent pf seen := by
  unfold World.getPossibleMoves
  rw [List.mem_filterMap]
  refine ⟨m, hm, ?_⟩
  rw [if_neg (by simpa using hseen), if_pos hagent]

theorem exists_max_le (P : ℕ → Prop) :
    ∀ (k : ℕ), (∃ j, j ≤ k ∧ P j) →
      ∃ j, j ≤ k ∧ P j ∧ ∀ j', j < j' → j' ≤ k → ¬ P j' := by
  intro k
  induction k with
  | zero =>
    rintro ⟨j, hj, hP⟩
    refine ⟨0, le_refl 0, ?_, ?_⟩
    · rwa [Nat.le_zero.mp hj] at hP
    · intro j' h1 h2
      omega
  | succ n ihn =>
    rintro ⟨j, hj, hP⟩
    by_cases hPn : P (n + 1)
    · refine ⟨n + 1, le_refl _, hPn, ?_⟩
      intro j' h1 h2
      omega
    · have hj' : j ≤ n := by
        rcases Nat.lt_or_ge j (n + 1) with h | h
        · omega
        · exfalso
          have hjn : j = n + 1 := by omega
          rw [hjn] at hP
          exact hPn hP
      obtain ⟨m, hm, hPm, hmax⟩ := ihn ⟨j, hj', hP⟩
      refine ⟨m, by omega, hPm, ?_⟩
      intro j' h1 h2
      rcases Nat.lt_or_ge j' (n + 1) with h | h
      · exact hmax j' h1 (by omega)
      · have hje : j' = n + 1 := by omega
        rw [hje]
        exact hPn

theorem safeInner_found (w : World) (agent : MapPosition → World → Bool) (range : ℕ)
    (openL : List PathFindData) (seen : List MapPosition) (st : ℤ) (sp : MapPosition)
    (q : MapPosition) (h : safeInner w agent range openL seen st sp = .found q) :
    w.getMobData q = none :=
  (safeInner_inv w agent range sp st openL seen st sp (Or.inl ⟨rfl, rfl⟩)).1 q h

theorem safeInner_potential (w : World) (agent : MapPosition → World → Bool) (range : ℕ) :
    ∀ (openL : List PathFindData) (seen : List MapPosition) (st : ℤ) (sp : MapPosition)
      (o : List PathFindData) (s : List MapPosition) (st' : ℤ) (sp' : MapPosition),
      openL ≠ [] → safeInner w agent range openL seen st sp = .cont o s st' sp' →
      travelPotential range o < travelPotential range openL := by
  intro openL
  induction openL with
  | nil =>
    intro seen st sp o s st' sp' hne _
    exact absurd rfl hne
  | cons e rest ih =>
    intro seen st sp o s st' sp' _ hc
    unfold safeInner at hc
    cases hmd : w.getMobData e.position with
    | none =>
      rw [hmd] at hc
      cases hc
    | some ts =>
      rw [hmd] at hc
      dsimp only at hc
      by_cases htrav : e.travelled < range
      · rw [if_pos htrav] at hc
        by_cases hme : (w.getPossibleMoves agent e (e.position :: seen)).isEmpty
        · rw [if_pos hme] at hc
          by_cases hrest : rest = []
          · subst hrest
            unfold safeInner at hc
            cases hc
            rw [travelPotential_nil, travelPotential_cons]
            have : 0 < 5 ^ (range - e.travelled) := pow_pos (by norm_num) _
            omega
          · have := ih _ _ _ _ _ _ _ hrest hc
            rw [travelPotential_cons]
            exact lt_of_lt_of_le this (Nat.le_add_left _ _)
        · rw [if_neg hme] at hc
          cases hc
          have hsub : range - e.travelled = (range - (e.travelled + 1)) + 1 := by omega
          rw [travelPotential_append, travelPotential_cons, hsub, pow_succ]
          have h1 := travelPotential_getPossibleMoves_le range w agent e (e.position :: seen)
          have hX : 0 < 5 ^ (range - (e.travelled + 1)) := pow_pos (by norm_num) _
          omega
      · rw [if_neg htrav] at hc
        by_cases hrest : rest = []
        · subst hrest
          unfold safeInner at hc
          cases hc
          rw [travelPotential_nil, travelPotential_cons]
          have : 0 < 5 ^ (range - e.travelled) := pow_pos (by norm_num) _
          omega
        · have := ih _ _ _ _ _ _ _ hrest hc
          rw [travelPotential_cons]
          exact lt_of_lt_of_le this (Nat.le_add_left _ _)

theorem safeInner_reach (w : World) (agent : MapPosition → World → Bool) (range : ℕ)
    (k : ℕ) (p : ℕ → MapPosition)
    (hstep : ∀ j, j < k →
      p (j + 1) ∈ [(p j).up 1, (p j).right 1, (p j).down 1, (p j).left 1] ∧
      agent (p (j + 1)) w = true)
    (hsafe : w.getMobData (p k) = none) (hk : k ≤ range) :
    ∀ (openL : List PathFindData) (seen : List MapPosition) (st : ℤ) (sp : MapPosition),
      openL.Pairwise (fun a b => a.travelled ≤ b.travelled) →
      SafeReachInv k p openL seen →
      ∀ (o : List PathFindData) (s : List MapPosition) (st' : ℤ) (sp' : MapPosition),
        safeInner w agent range openL seen st sp = .cont o s st' sp' →
        SafeReachInv k p o s := by
  intro openL
  induction openL with
  | nil =>
    intro seen st sp _ hJ o s st' sp' _
    obtain ⟨i, _, ⟨e, he, _, _⟩, _⟩ := hJ
    exact absurd he (List.not_mem_nil e)
  | cons e rest ih =>
    intro seen st sp hsorted hJ o s st' sp' hc
    obtain ⟨i, hik, ⟨we, hwe_mem, hwe_pos, hwe_tr⟩, htail⟩ := hJ
    unfold safeInner at hc
    cases hmd : w.getMobData e.position with
    | none =>
      rw [hmd] at hc
      cases hc
    | some ts =>
      rw [hmd] at hc
      dsimp only at hc
      have hte : e.travelled ≤ i := by
        rcases List.mem_cons.mp hwe_mem with heq | hwe_rest
        · rw [← heq]
          exact hwe_tr
        · exact le_trans ((List.pairwise_cons.mp hsorted).1 we hwe_rest) hwe_tr
      by_cases hT : ∃ j, i ≤ j ∧ j ≤ k ∧ p j = e.position
      · have hTex : ∃ j, j ≤ k ∧ (i ≤ j ∧ p j = e.position) := by
          obtain ⟨j0, hij0, hj0k, hpj0⟩ := hT
          exact ⟨j0, hj0k, hij0, hpj0⟩
        obtain ⟨j, hjk, ⟨hij, hpj⟩, hmax⟩ :=
          exists_max_le (fun j => i ≤ j ∧ p j = e.position) k hTex
        have hjlt : j < k := by
          rcases Nat.lt_or_ge j k with h | h
          · exact h
          · exfalso
            have hje : j = k := by omega
            rw [hje] at hpj
            rw [hpj] at hsafe
            rw [hmd] at hsafe
            cases hsafe
        have hstepj := hstep j hjlt
        have hnotseen : p (j + 1) ∉ e.position :: seen := by
          rw [List.mem_cons]
          rintro (h | h)
          · exact hmax (j + 1) (by omega) (by omega) ⟨by omega, h⟩
          · exact htail (j + 1) (by omega) (by omega) h
        have hmem_move : pathFindDataNewFrom (p (j + 1)) e ∈
            w.getPossibleMoves agent e (e.position :: seen) := by
          apply mem_getPossibleMoves
          · rw [← hpj]
            exact hstepj.1
          · exact hnotseen
          · exact hstepj.2
        have hne_nil : w.getPossibleMoves agent e (e.position :: seen) ≠ [] := by
          intro hnil
          rw [hnil] at hmem_move
          exact List.not_mem_nil _ hmem_move
        have hne_moves : ¬ (w.getPossibleMoves agent e (e.position :: seen)).isEmpty = true := by
          simpa using hne_nil
        have htrav : e.travelled < range := by omega
        rw [if_pos htrav, if_neg hne_moves] at hc
        cases hc
        refine ⟨j + 1, by omega,
          ⟨pathFindDataNewFrom (p (j + 1)) e, List.mem_append_right _ hmem_move, rfl, ?_⟩, ?_⟩
        · show e.travelled + 1 ≤ j + 1
          omega
        · intro j' hj1 hj2
          rw [List.mem_cons]
          rintro (h | h)
          · exact hmax j' (by omega) hj2 ⟨by omega, h⟩
          · exact htail j' (by omega) hj2 h
      · have hwe_rest : we ∈ rest := by
          rcases List.mem_cons.mp hwe_mem with rfl | h
          · exact absurd ⟨i, le_refl i, hik, hwe_pos.symm⟩ hT
          · exact h
        have hJrest : SafeReachInv k p rest (e.position :: seen) := by
          refine ⟨i, hik, ⟨we, hwe_rest, hwe_pos, hwe_tr⟩, ?_⟩
          intro j' hj1 hj2
          rw [List.mem_cons]
          rintro (h | h)
          · exact hT ⟨j', by omega, hj2, h⟩
          · exact htail j' hj1 hj2 h
        have hsorted_rest := (List.pairwise_cons.mp hsorted).2
        by_cases htrav : e.travelled < range
        · rw [if_pos htrav] at hc
          by_cases hme : (w.getPossibleMoves agent e (e.position :: seen)).isEmpty
          · rw [if_pos hme] at hc
            exact ih _ _ _ hsorted_rest hJrest o s st' sp' hc
          · rw [if_neg hme] at hc
            cases hc
            obtain ⟨i', hik', ⟨we', hmem', hpos', htr'⟩, htail'⟩ := hJrest
            exact ⟨i', hik', ⟨we', List.mem_append_left _ hmem', hpos', htr'⟩, htail'⟩
        · rw [if_neg htrav] at hc
          exact ih _ _ _ hsorted_rest hJrest o s st' sp' hc

theorem safeOuter_reach (w : World) (agent : MapPosition → World → Bool) (range : ℕ)
    (k : ℕ) (p : ℕ → MapPosition)
    (hstep : ∀ j, j < k →
      p (j + 1) ∈ [(p j).up 1, (p j).right 1, (p j).down 1, (p j).left 1] ∧
      agent (p (j + 1)) w = true)
    (hsafe : w.getMobData (p k) = none) (hk : k ≤ range) :
    ∀ (fuel : ℕ) (openL : List PathFindData) (seen : List MapPosition) (st : ℤ)
      (sp : MapPosition),
      travelPotential range openL < fuel →
      SafeReachInv k p openL seen →
      w.getMobData (safeOuter w agent range fuel openL seen st sp) = none := by
  intro fuel
  induction fuel with
  | zero =>
    intro openL seen st sp hfuel _
    omega
  | succ f ihf =>
    intro openL seen st sp hfuel hJ
    unfold safeOuter
    have hne_nil : openL ≠ [] := by
      obtain ⟨i, _, ⟨e, he, _, _⟩, _⟩ := hJ
      intro hnil
      rw [hnil] at he
      exact List.not_mem_nil _ he
    have hne : ¬ openL.isEmpty = true := by simpa using hne_nil
    rw [if_neg hne]
    have hJs : SafeReachInv k p (sortByTravelled openL) seen := by
      obtain ⟨i, hik, ⟨e, he, h1, h2⟩, htail⟩ := hJ
      exact ⟨i, hik, ⟨e, (mem_sortByTravelled openL e).mpr he, h1, h2⟩, htail⟩
    cases hres : safeInner w agent range (sortByTravelled openL) seen st sp with
    | found q =>
      exact safeInner_found w agent range _ _ _ _ q hres
    | cont o s st' sp' =>
      have hJ' := safeInner_reach w agent range k p hstep hsafe hk
        (sortByTravelled openL) seen st sp (sorted_sortByTravelled openL) hJs o s st' sp' hres
      have hs_ne : sortByTravelled openL ≠ [] := by
        obtain ⟨i, _, ⟨e, he, _, _⟩, _⟩ := hJs
        intro hnil
        rw [hnil] at he
        exact List.not_mem_nil _ he
      have hpot : travelPotential range o < travelPotential range openL := by
        have h := safeInner_potential w agent range _ seen st sp o s st' sp' hs_ne hres
        rwa [travelPotential_sortByTravelled] at h
      exact ihf o s st' sp' (by omega) hJ'

/-- Liveness of `path_find_nearest_safe_space`: when some cell with no
danger entry is reachable from the start within `range` agent-passable
steps, the returned cell has no danger entry.  The walk may revisit cells
(the proof drops everything before its last visit to the start). -/
theorem pathFindNearestSafeSpace_reach (w : World) (agent : MapPosition → World → Bool)
    (pos : MapPosition) (range : ℕ) (now : ℤ) (k : ℕ) (p : ℕ → MapPosition)
    (hp0 : p 0 = pos) (hk : k ≤ range)
    (hstep : ∀ j, j < k →
      p (j + 1) ∈ [(p j).up 1, (p j).right 1, (p j).down 1, (p j).left 1] ∧
      agent (p (j + 1)) w = true)
    (hsafe : w.getMobData (p k) = none) :
    w.getMobData (w.pathFindNearestSafeSpace agent pos range now) = none := by
  unfold World.pathFindNearestSafeSpace
  by_cases hstart : w.getMobData pos = none
  · rw [if_pos hstart]
    exact hstart
  · rw [if_neg hstart]
    obtain ⟨j0, hj0k, hPj0, hmax⟩ :=
      exists_max_le (fun j => p j = pos) k ⟨0, Nat.zero_le k, hp0⟩
    have hstepq : ∀ j, j < k - j0 →
        p (j0 + j + 1) ∈ [(p (j0 + j)).up 1, (p (j0 + j)).right 1, (p (j0 + j)).down 1,
          (p (j0 + j)).left 1] ∧ agent (p (j0 + j + 1)) w = true := by
      intro j hj
      exact hstep (j0 + j) (by omega)
    have hsafeq : w.getMobData (p (j0 + (k - j0))) = none := by
      rw [show j0 + (k - j0) = k from by omega]
      exact hsafe
    have hkq : k - j0 ≤ range := by omega
    have hJ0 : SafeReachInv (k - j0) (fun m => p (j0 + m)) [pathFindDataNew pos] [pos] := by
      refine ⟨0, Nat.zero_le _, ⟨pathFindDataNew pos, List.mem_singleton.mpr rfl, ?_, le_refl 0⟩, ?_⟩
      · show pos = p (j0 + 0)
        rw [Nat.add_zero]
        exact hPj0.symm
      · intro j' hj1 hj2 hcon
        rw [List.mem_singleton] at hcon
        exact hmax (j0 + j') (by omega) (by omega) hcon
    have hfuel : travelPotential range [pathFindDataNew pos] < 5 ^ range + range + 10 := by
      have h : travelPotential range [pathFindDataNew pos] = 5 ^ range := by
        simp [travelPotential, pathFindDataNew]
      rw [h]
      omega
    exact safeOuter_reach w agent range (k - j0) (fun m => p (j0 + m)) hstepq hsafeq hkq
      _ _ _ _ _ hfuel hJ0





theorem wallsPreserved_refl (w : World) : wallsPreserved w w := fun _ hp => hp

theorem wallsPreserved_trans {w1 w2 w3 : World} (h1 : wallsPreserved w1 w2)
    (h2 : wallsPreserved w2 w3) : wallsPreserved w1 w3 :=
  fun p hp => h2 p (h1 p hp)

theorem getCell_of_data_eq {w w' : World} (h : w'.data = w.data) (p : MapPosition) :
    w'.getCell p = w.getCell p := by
  unfold World.getCell
  rw [h]

theorem wallsPreserved_of_data_eq {w w' : World} (h : w'.data = w.data) :
    wallsPreserved w w' := fun p hp => by rw [getCell_of_data_eq h]; exact hp

theorem World.addExplosion_data (w : World) (e : Explosion) (ex : ItemStore Explosion) :
    (w.addExplosion e ex).1.data = w.data := rfl

theorem World.clearInternalCell_data (w : World) (pos : MapPosition) :
    (w.clearInternalCell pos).data = w.data := rfl

theorem World.setMobData_data (w : World) (pos : MapPosition) (ts : ℤ) :
    (w.setMobData pos ts).data = w.data := by
  unfold World.setMobData
  cases w.dataMob.getAt pos with
  | none => rfl
  | some t0 =>
    dsimp only
    split <;> rfl

theorem World.updateBombPath_data (w : World) (bid : ℕ) (bombs : ItemStore Bomb) :
    (w.updateBombPath bid bombs).data = w.data := by
  unfold World.updateBombPath
  cases bombs.get bid with
  | none => rfl
  | some b0 =>
    dsimp only
    generalize (updateBombPathLoop w bombs (bombs.items.length + 2) [bid] [b0.position]
      b0.timestamp []).2 = cells
    generalize (updateBombPathLoop w bombs (bombs.items.length + 2) [bid] [b0.position]
      b0.timestamp []).1 = ts
    induction cells generalizing w with
    | nil => rfl
    | cons c cs ih =>
      rw [List.foldl_cons]
      rw [ih (w.setMobData c ts), World.setMobData_data]

theorem wallsPreserved_setCell {w : World} (hWF : w.data.WF) {q : MapPosition}
    (hq : w.getCell q ≠ some CellType.Wall) (v : CellType) :
    wallsPreserved w (w.setCell q v) := by
  intro p hp
  rw [World.getCell_setCell hWF]
  rw [if_neg]
  · exact hp
  · rintro ⟨rfl, _⟩
    exact hq hp

theorem explodeRay_preserves (now : ℤ) (bomb : Bomb) (off : PositionOffset) :
    ∀ (rem : ℕ) (dist : ℤ) (w : World) (ex : ItemStore Explosion) (rand : List ℚ),
      w.data.WF →
      (explodeRayAux now bomb off rem dist w ex rand).1.data.WF ∧
      wallsPreserved w (explodeRayAux now bomb off rem dist w ex rand).1 := by
  intro rem
  induction rem with
  | zero =>
    intro dist w ex rand hWF
    exact ⟨hWF, wallsPreserved_refl w⟩
  | succ rem ih =>
    intro dist w ex rand hWF
    unfold explodeRayAux
    dsimp only
    cases hcell : w.getCell (bomb.position.add (off.scale dist)) with
    | none => exact ⟨hWF, wallsPreserved_refl w⟩
    | some ct =>
      cases ct with
      | Wall => exact ⟨hWF, wallsPreserved_refl w⟩
      | Bomb =>
        cases w.dataInternal.getAt (bomb.position.add (off.scale dist)) with
        | none =>
          dsimp only
          exact ⟨hWF, wallsPreserved_of_data_eq rfl⟩
        | some icd =>
          cases icd with
          | Bomb bid => exact ⟨hWF, wallsPreserved_refl w⟩
          | Empty =>
            dsimp only
            exact ⟨hWF, wallsPreserved_of_data_eq rfl⟩
          | Explosion eid =>
            dsimp only
            exact ⟨hWF, wallsPreserved_of_data_eq rfl⟩
      | Mystery =>
        dsimp only
        have hne : ((w.addExplosion (explosionFromBombPos bomb
            (bomb.position.add (off.scale dist)) now) ex).1).getCell
            (bomb.position.add (off.scale dist)) ≠ some CellType.Wall := by
          rw [show ((w.addExplosion (explosionFromBombPos bomb
              (bomb.position.add (off.scale dist)) now) ex).1).getCell
              (bomb.position.add (off.scale dist)) = w.getCell (bomb.position.add
              (off.scale dist)) from rfl, hcell]
          intro hcon
          simp at hcon
        exact ⟨World.WF_setCell hWF _ _, wallsPreserved_trans
          (wallsPreserved_of_data_eq rfl) (wallsPreserved_setCell hWF hne _)⟩
      | Empty =>
        dsimp only
        have h1 := ih (dist + 1)
          (w.addExplosion (explosionFromBombPos bomb (bomb.position.add (off.scale dist)) now)
            ex).1
          (w.addExplosion (explosionFromBombPos bomb (bomb.position.add (off.scale dist)) now)
            ex).2 rand hWF
        exact ⟨h1.1, wallsPreserved_trans (wallsPreserved_of_data_eq rfl) h1.2⟩
      | MobSpawner =>
        dsimp only
        have h1 := ih (dist + 1)
          (w.addExplosion (explosionFromBombPos bomb (bomb.position.add (off.scale dist)) now)
            ex).1
          (w.addExplosion (explosionFromBombPos bomb (bomb.position.add (off.scale dist)) now)
            ex).2 rand hWF
        exact ⟨h1.1, wallsPreserved_trans (wallsPreserved_of_data_eq rfl) h1.2⟩
      | ItemBomb =>
        dsimp only
        have hne : ((w.addExplosion (explosionFromBombPos bomb
            (bomb.position.add (off.scale dist)) now) ex).1).getCell
            (bomb.position.add (off.scale dist)) ≠ some CellType.Wall := by
          rw [show ((w.addExplosion (explosionFromBombPos bomb
              (bomb.position.add (off.scale dist)) now) ex).1).getCell
              (bomb.position.add (off.scale dist)) = w.getCell (bomb.position.add
              (off.scale dist)) from rfl, hcell]
          intro hcon
          simp at hcon
        have hWF2 : ((w.addExplosion (explosionFromBombPos bomb
            (bomb.position.add (off.scale dist)) now) ex).1.setCell
            (bomb.position.add (off.scale dist)) CellType.Empty).data.WF :=
          World.WF_setCell hWF _ _
        have h1 := ih (dist + 1)
          ((w.addExplosion (explosionFromBombPos bomb
            (bomb.position.add (off.scale dist)) now) ex).1.setCell
            (bomb.position.add (off.scale dist)) CellType.Empty)
          (w.addExplosion (explosionFromBombPos bomb
            (bomb.position.add (off.scale dist)) now) ex).2 rand hWF2
        exact ⟨h1.1, wallsPreserved_trans (wallsPreserved_of_data_eq rfl)
          (wallsPreserved_trans (wallsPreserved_setCell hWF hne CellType.Empty) h1.2)⟩
      | ItemRange =>
        dsimp only
        have hne : ((w.addExplosion (explosionFromBombPos bomb
            (bomb.position.add (off.scale dist)) now) ex).1).getCell
            (bomb.position.add (off.scale dist)) ≠ some CellType.Wall := by
          rw [show ((w.addExplosion (explosionFromBombPos bomb
              (bomb.position.add (off.scale dist)) now) ex).1).getCell
              (bomb.position.add (off.scale dist)) = w.getCell (bomb.position.add
              (off.scale dist)) from rfl, hcell]
          intro hcon
          simp at hcon
        have hWF2 : ((w.addExplosion (explosionFromBombPos bomb
            (bomb.position.add (off.scale dist)) now) ex).1.setCell
            (bomb.position.add (off.scale dist)) CellType.Empty).data.WF :=
          World.WF_setCell hWF _ _
        have h1 := ih (dist + 1)
          ((w.addExplosion (explosionFromBombPos bomb
            (bomb.position.add (off.scale dist)) now) ex).1.setCell
            (bomb.position.add (off.scale dist)) CellType.Empty)
          (w.addExplosion (explosionFromBombPos bomb
            (bomb.position.add (off.scale dist)) now) ex).2 rand hWF2
        exact ⟨h1.1, wallsPreserved_trans (wallsPreserved_of_data_eq rfl)
          (wallsPreserved_trans (wallsPreserved_setCell hWF hne CellType.Empty) h1.2)⟩
      | ItemRandom =>
        dsimp only
        have hne : ((w.addExplosion (explosionFromBombPos bomb
            (bomb.position.add (off.scale dist)) now) ex).1).getCell
            (bomb.position.add (off.scale dist)) ≠ some CellType.Wall := by
          rw [show ((w.addExplosion (explosionFromBombPos bomb
              (bomb.position.add (off.scale dist)) now) ex).1).getCell
              (bomb.position.add (off.scale dist)) = w.getCell (bomb.position.add
              (off.scale dist)) from rfl, hcell]
          intro hcon
          simp at hcon
        have hWF2 : ((w.addExplosion (explosionFromBombPos bomb
            (bomb.position.add (off.scale dist)) now) ex).1.setCell
            (bomb.position.add (off.scale dist)) CellType.Empty).data.WF :=
          World.WF_setCell hWF _ _
        have h1 := ih (dist + 1)
          ((w.addExplosion (explosionFromBombPos bomb
            (bomb.position.add (off.scale dist)) now) ex).1.setCell
            (bomb.position.add (off.scale dist)) CellType.Empty)
          (w.addExplosion (explosionFromBombPos bomb
            (bomb.position.add (off.scale dist)) now) ex).2 rand hWF2
        exact ⟨h1.1, wallsPreserved_trans (wallsPreserved_of_data_eq rfl)
          (wallsPreserved_trans (wallsPreserved_setCell hWF hne CellType.Empty) h1.2)⟩

theorem explodeBombPath_preserves (w : World) (bomb : Bomb) (ex : ItemStore Explosion)
    (rand : List ℚ) (now : ℤ) (hWF : w.data.WF) :
    (w.explodeBombPath bomb ex rand now).1.data.WF ∧
    wallsPreserved w (w.explodeBombPath bomb ex rand now).1 := by
  unfold World.explodeBombPath
  dsimp only
  generalize hr0 : w.addExplosion (explosionFromBombPos bomb bomb.position now) ex = r0
  have h0 : r0.1.data.WF ∧ wallsPreserved w r0.1 := by
    rw [← hr0]
    exact ⟨hWF, wallsPreserved_of_data_eq rfl⟩
  generalize hr1 : explodeRayAux now bomb (PositionOffset.up 1) bomb.range 1 r0.1 r0.2 rand = r1
  have h1 : r1.1.data.WF ∧ wallsPreserved r0.1 r1.1 := by
    rw [← hr1]
    exact explodeRay_preserves now bomb (PositionOffset.up 1) bomb.range 1 r0.1 r0.2 rand h0.1
  generalize hr2 : explodeRayAux now bomb (PositionOffset.down 1) bomb.range 1 r1.1 r1.2.1
    r1.2.2.1 = r2
  have h2 : r2.1.data.WF ∧ wallsPreserved r1.1 r2.1 := by
    rw [← hr2]
    exact explodeRay_preserves now bomb (PositionOffset.down 1) bomb.range 1 r1.1 r1.2.1
      r1.2.2.1 h1.1
  generalize hr3 : explodeRayAux now bomb (PositionOffset.left 1) bomb.range 1 r2.1 r2.2.1
    r2.2.2.1 = r3
  have h3 : r3.1.data.WF ∧ wallsPreserved r2.1 r3.1 := by
    rw [← hr3]
    exact explodeRay_preserves now bomb (PositionOffset.left 1) bomb.range 1 r2.1 r2.2.1
      r2.2.2.1 h2.1
  generalize hr4 : explodeRayAux now bomb (PositionOffset.right 1) bomb.range 1 r3.1 r3.2.1
    r3.2.2.1 = r4
  have h4 : r4.1.data.WF ∧ wallsPreserved r3.1 r4.1 := by
    rw [← hr4]
    exact explodeRay_preserves now bomb (PositionOffset.right 1) bomb.range 1 r3.1 r3.2.1
      r3.2.2.1 h3.1
  exact ⟨h4.1, wallsPreserved_trans h0.2 (wallsPreserved_trans h1.2
    (wallsPreserved_trans h2.2 (wallsPreserved_trans h3.2 h4.2)))⟩

theorem explodeBombLoop_preserves (now : ℤ) :
    ∀ (fuel : ℕ) (queue : List ℕ) (w : World) (bombs : ItemStore Bomb)
      (ex : ItemStore Explosion) (players : List (ℕ × Player)) (rand : List ℚ),
      w.data.WF →
      (explodeBombLoop now fuel queue w bombs ex players rand).1.data.WF ∧
      wallsPreserved w (explodeBombLoop now fuel queue w bombs ex players rand).1 := by
  intro fuel
  induction fuel with
  | zero =>
    intro queue w bombs ex players rand hWF
    exact ⟨hWF, wallsPreserved_refl w⟩
  | succ f ih =>
    intro queue w bombs ex players rand hWF
    cases queue with
    | nil => exact ⟨hWF, wallsPreserved_refl w⟩
    | cons bid rest =>
      unfold explodeBombLoop
      cases hget : bombs.get bid with
      | none => exact ih rest w bombs ex players rand hWF
      | some b =>
        dsimp only
        by_cases hcell : w.getCell b.position = some CellType.Bomb
        · rw [if_pos hcell]
          have hWF1 : ((w.setCell b.position CellType.Empty).clearInternalCell
              b.position).data.WF := World.WF_setCell hWF _ _
          have hp1 : wallsPreserved w ((w.setCell b.position CellType.Empty).clearInternalCell
              b.position) := by
            refine wallsPreserved_trans (wallsPreserved_setCell hWF ?_ _)
              (wallsPreserved_of_data_eq rfl)
            rw [hcell]
            simp
          generalize hr : ((w.setCell b.position CellType.Empty).clearInternalCell
            b.position).explodeBombPath b ex rand now = r
          have h2 : r.1.data.WF ∧ wallsPreserved ((w.setCell b.position
              CellType.Empty).clearInternalCell b.position) r.1 := by
            rw [← hr]
            exact explodeBombPath_preserves _ b ex rand now hWF1
          have h3 := ih (rest ++ r.2.2.2) r.1 (bombs.modify bid Bomb.terminate) r.2.1
            (playersModify players b.pid Player.bombExploded) r.2.2.1 h2.1
          exact ⟨h3.1, wallsPreserved_trans hp1 (wallsPreserved_trans h2.2 h3.2)⟩
        · rw [if_neg hcell]
          generalize hr : w.explodeBombPath b ex rand now = r
          have h2 : r.1.data.WF ∧ wallsPreserved w r.1 := by
            rw [← hr]
            exact explodeBombPath_preserves w b ex rand now hWF
          have h3 := ih (rest ++ r.2.2.2) r.1 (bombs.modify bid Bomb.terminate) r.2.1
            (playersModify players b.pid Player.bombExploded) r.2.2.1 h2.1
          exact ⟨h3.1, wallsPreserved_trans h2.2 h3.2⟩

theorem World.explodeBomb_preserves (w : World) (fuel bid : ℕ) (bombs : ItemStore Bomb)
    (ex : ItemStore Explosion) (players : List (ℕ × Player)) (rand : List ℚ) (now : ℤ)
    (hWF : w.data.WF) :
    wallsPreserved w (w.explodeBomb fuel bid bombs ex players rand now).1 :=
  (explodeBombLoop_preserves now fuel [bid] w bombs ex players rand hWF).2

theorem World.addBomb_preserves (w : World) (bomb : Bomb) (bombs : ItemStore Bomb)
    (hWF : w.data.WF) (hcell : w.getCell bomb.position ≠ some CellType.Wall) :
    wallsPreserved w (w.addBomb bomb bombs).1 := by
  unfold World.addBomb
  dsimp only
  refine wallsPreserved_trans (wallsPreserved_setCell hWF hcell _)
    (wallsPreserved_trans (wallsPreserved_of_data_eq (World.updateBombPath_data _ _ _))
      (wallsPreserved_of_data_eq rfl))

theorem createBombForPlayer_preserves (w : World) (bombs : ItemStore Bomb) (player : Player)
    (now : ℤ) (hWF : w.data.WF) :
    wallsPreserved w (createBombForPlayer w bombs player now).1 := by
  unfold createBombForPlayer
  by_cases hb : player.hasBombRemaining = true
  · rw [if_pos hb]
    dsimp only
    by_cases hcell : w.getCell (player.position.toMapPosition w) = some CellType.Empty
    · rw [if_pos hcell]
      refine World.addBomb_preserves w _ bombs hWF ?_
      rw [show (bombNew player (player.position.toMapPosition w) now).position
        = player.position.toMapPosition w from rfl, hcell]
      simp
    · rw [if_neg hcell]
      exact wallsPreserved_refl w
  · rw [if_neg hb]
    exact wallsPreserved_refl w

theorem inB_of_getCell_some {w : World} {p : MapPosition} {ct : CellType}
    (h : w.getCell p = some ct) : w.data.inB p := by
  by_contra hnb
  unfold World.getCell WorldData.getAt at h
  rw [WorldData.getIndex_eq_none.mpr hnb] at h
  simp at h

theorem mysteryItem_code_eq_spec (r : ℚ) :
    (if r > 9/10 then CellType.ItemBomb
      else if r > 8/10 then CellType.ItemRange
      else if r > 1/2 then CellType.ItemRandom
      else CellType.Empty) = mysteryItemSpec r := by
  unfold mysteryItemSpec
  by_cases h1 : r > 9/10
  · simp [h1]
  · by_cases h2 : r > 8/10
    · have hA : 8/10 < r ∧ r ≤ 9/10 := ⟨h2, by linarith⟩
      simp [h1, h2, hA]
    · by_cases h3 : r > 1/2
      · have hA : ¬(8/10 < r ∧ r ≤ 9/10) := fun hc => h2 hc.1
        have hB : 1/2 < r ∧ r ≤ 8/10 := ⟨h3, by linarith⟩
        simp [h1, h2, h3, hA, hB]
      · have hA : ¬(8/10 < r ∧ r ≤ 9/10) := fun hc => h2 hc.1
        have hB : ¬(1/2 < r ∧ r ≤ 8/10) := fun hc => h3 hc.1
        have h3' : ¬((2 : ℚ)⁻¹ < r) := by
          rw [show ((2 : ℚ))⁻¹ = 1/2 from by norm_num]
          exact h3
        simp [h1, h2, h3, hA, hB, h3']

theorem cexWorldFW_not_empty (q : MapPosition) : cexWorldFW.isEmptyAt q = false := by
  unfold World.isEmptyAt
  rw [decide_eq_false_iff_not]
  intro h
  have hin := inB_of_getCell_some h
  obtain ⟨a, b, c, e⟩ := hin
  unfold World.getCell WorldData.getAt at h
  rw [WorldData.getIndex_eq_some ⟨a, b, c, e⟩] at h
  have b' : q.x < (5 : ℤ) := b
  have e' : q.y < (5 : ℤ) := e
  simp only [Option.map_some', Option.some_bind] at h
  rw [List.getD_eq_getElem?_getD] at h
  have h2 : cellTypeFromU8 ((List.replicate 25 1 : List ℕ)[((q.y * (5 : ℤ)) + q.x).toNat]?.getD 0)
      = some CellType.Empty := h
  rw [List.getElem?_replicate, if_pos (by omega)] at h2
  exact absurd h2 (by decide)

/-- Claim C1 (code bug): on the cascade state `cexWorldC1`, player 7 starts
with `cur_bombs = 4` matching 4 live bombs, but after detonating bomb 1 the
counter sits at 0 while one live bomb (id 4, far away at `(1,3)`) remains.
Bomb 3 is reachable from both bomb 1 and bomb 2, is queued twice, and
`explode_bomb` reprocesses the already terminated bomb (no `is_active`
check on the popped id), so `bomb_exploded` fires four times for three
detonated bombs. -/
theorem claim_C1_cur_bombs_desync :
    countLiveBombsOwnedBy cexBombsC1 7 = 4 ∧
    (playersGet cexPlayersC1 7).map Player.curBombs = some 4 ∧
    countLiveBombsOwnedBy
      (cexWorldC1.explodeBomb 10 1 cexBombsC1 itemStoreNew cexPlayersC1 [] 0).2.1 7 = 1 ∧
    (playersGet
      (cexWorldC1.explodeBomb 10 1 cexBombsC1 itemStoreNew cexPlayersC1 [] 0).2.2.2.1
      7).map Player.curBombs = some 0 := by
  decide

/-- Claim C2 (counterexample): a single 0.25 s update leaves elapsed time
0.25 < 0.3, yet the explosion is already harmless — `harmful` turns off once
`remaining ≤ 0.3`, i.e. 0.2 s after birth, not 0.3 s. -/
theorem claim_C2_cex :
    ((explosionNew none ⟨0, 0⟩ 0).update (1/4)).harmful = false ∧ ((1 : ℚ)/4 < 3/10) := by
  have hrem : (explosionNew none ⟨0, 0⟩ 0).remaining = max 0 (1/2 - 0) := by
    show (1 : ℚ)/2 = max 0 (1/2 - 0)
    rw [sub_zero, max_eq_right]
    norm_num
  have hharm : (explosionNew none ⟨0, 0⟩ 0).harmful = decide ((0 : ℚ) < 1/5) := by
    show true = decide ((0 : ℚ) < 1/5)
    exact (decide_eq_true (by norm_num)).symm
  have hact : (explosionNew none ⟨0, 0⟩ 0).active = decide ((0 : ℚ) < 1/2) := by
    show true = decide ((0 : ℚ) < 1/2)
    exact (decide_eq_true (by norm_num)).symm
  have h := Explosion.update_state (le_refl (0 : ℚ)) hrem hharm hact
    (show (0 : ℚ) ≤ 1/4 by norm_num)
  refine ⟨?_, by norm_num⟩
  rw [h.2.1]
  exact decide_eq_false (by norm_num)

/-- Claim C2 (amended): an explosion is active exactly while the summed
update times stay below 0.5 s, and harmful exactly while they stay below
0.2 s (not 0.3 s). -/
theorem claim_C2_amended : ∀ (b : Option Bomb) (pos : MapPosition) (now : ℤ) (ds : List ℚ),
    (∀ δ ∈ ds, 0 ≤ δ) →
    (((explosionNew b pos now).applyUpdates ds).harmful = true ↔ ds.sum < 1/5) ∧
    (((explosionNew b pos now).applyUpdates ds).active = true ↔ ds.sum < 1/2) := by
  intro b pos now ds hds
  have hrem : (explosionNew b pos now).remaining = max 0 (1/2 - 0) := by
    show (1 : ℚ)/2 = max 0 (1/2 - 0)
    norm_num
  have hharm : (explosionNew b pos now).harmful = decide ((0 : ℚ) < 1/5) := by
    show true = decide ((0 : ℚ) < 1/5)
    exact (decide_eq_true (by norm_num)).symm
  have hact : (explosionNew b pos now).active = decide ((0 : ℚ) < 1/2) := by
    show true = decide ((0 : ℚ) < 1/2)
    exact (decide_eq_true (by norm_num)).symm
  have h := Explosion.applyUpdates_state ds hds (le_refl (0 : ℚ)) hrem hharm hact
  constructor
  · rw [h.2.1, zero_add, decide_eq_true_eq]
  · rw [h.2.2, zero_add, decide_eq_true_eq]

theorem claim_C2_witness :
    (∀ δ ∈ ([1/10] : List ℚ), 0 ≤ δ) ∧
    (((explosionNew none ⟨0, 0⟩ 0).applyUpdates [1/10]).harmful = true ↔
      ([1/10] : List ℚ).sum < 1/5) := by
  have hpos : ∀ δ ∈ ([1/10] : List ℚ), 0 ≤ δ := by
    intro δ hδ
    rw [List.mem_singleton] at hδ
    subst hδ
    norm_num
  exact ⟨hpos, (claim_C2_amended none ⟨0, 0⟩ 0 [1/10] hpos).1⟩

/-- Claim C3 (counterexample): in a 9×5 all-wall world with a single empty
cell at `(4,1)` — the right edge of the radius-1 ring around `(3,1)` — the
scan falls through to `(1,1)` because the `// Right.` block rescans the left
column instead of the right edge; a ring scan that tested the right edge
would return `(4,1)`. -/
theorem claim_C3_cex :
    cexWorldC3.findNearestBlank ⟨3, 1⟩ = ⟨1, 1⟩ ∧
    cexWorldC3.isEmptyAt (MapPosition.right ⟨3, 1⟩ 1) = true ∧
    MapPosition.right ⟨3, 1⟩ 1 ≠ ⟨1, 1⟩ := by
  decide

/-- Claim C3 (amended): `find_nearest_blank` returns its argument when that
cell is empty; otherwise it returns the first empty cell of the candidate
scan — rings of radius 1 through 19 (not 20), testing top edge, bottom
edge, left edge, and then the left-edge column again under the right-side
guard (the right edge itself is never tested) — and `(1,1)` when the scan
finds nothing; on a map at least 3×3 whose border cells are all non-empty
the result is never a border cell. -/
theorem claim_C3_amended : ∀ (w : World) (pos : MapPosition),
    w.findNearestBlank pos = w.findNearestBlankSpec pos ∧
    (3 ≤ w.sizes.mapSize.width → 3 ≤ w.sizes.mapSize.height →
      (∀ q, w.isBorder q → w.isEmptyAt q = false) →
      ¬ w.isBorder (w.findNearestBlank pos)) :=
  fun w pos => ⟨findNearestBlank_eq_spec w pos,
    fun h1 h2 h3 => findNearestBlank_not_border w pos h1 h2 h3⟩

theorem claim_C3_witness :
    cexWorldFW.findNearestBlank ⟨2, 2⟩ = cexWorldFW.findNearestBlankSpec ⟨2, 2⟩ ∧
    ¬ cexWorldFW.isBorder (cexWorldFW.findNearestBlank ⟨2, 2⟩) := by
  have h := claim_C3_amended cexWorldFW ⟨2, 2⟩
  exact ⟨h.1, h.2 (by decide) (by decide) (fun q _ => cexWorldFW_not_empty q)⟩

/-- Claim C4 (counterexample): in `World::new(5, 5, _)` the interior cell
`(3,2)` has odd x on an even row and is `Empty`, not `Wall` — the pillar
lattice sits on even columns (`x*2`), not odd ones. -/
theorem claim_C4_cex :
    (worldNew 5 5 gameConfigNew).getCell ⟨3, 2⟩ = some CellType.Empty ∧
    (3 : ℤ) % 2 = 1 ∧ (2 : ℤ) % 2 = 0 := by
  refine ⟨?_, by decide, by decide⟩
  have hmap : (worldSizeNew 5 5 gameConfigNew).mapSize = ⟨5, 5⟩ := by
    unfold worldSizeNew
    dsimp only
    norm_num
  have h5 : ratTrunc (((5 : ℤ) : ℚ) / 2) = 2 := by
    rw [show ((5 : ℤ) : ℚ) = ((2 * 2 + 1 : ℤ) : ℚ) from by norm_num]
    exact ratTrunc_odd_half (by decide)
  have hnm : (⟨3, 2⟩ : MapPosition) ∈ wallList 5 5 → False := by
    intro hmem
    unfold wallList at hmem
    rw [h5] at hmem
    revert hmem
    decide
  rw [worldNew_eq_applyWalls, hmap]
  rw [World.getCell_applyWalls (WF_worldBase 5 5 gameConfigNew)]
  rw [if_neg (fun hcon => hnm hcon.1)]
  rw [getCell_worldBase]
  rw [if_pos (by decide)]

/-- Claim C4 (amended): after `World::new` with odd positive dimensions,
every border cell and every in-bounds cell with even x on an even row reads
`Wall`; and the modelled mutating operations — the bomb-explosion step and
player bomb placement — never overwrite a `Wall` cell. -/
theorem claim_C4_amended :
    (∀ (width height : ℤ) (config : GameConfig), width % 2 = 1 → height % 2 = 1 →
      1 ≤ width → 1 ≤ height → ∀ q : MapPosition,
      0 ≤ q.x → q.x < width → 0 ≤ q.y → q.y < height →
      (q.x = 0 ∨ q.y = 0 ∨ q.x = width - 1 ∨ q.y = height - 1 ∨
        (q.x % 2 = 0 ∧ q.y % 2 = 0)) →
      (worldNew width height config).getCell q = some CellType.Wall) ∧
    (∀ (w : World) (fuel bid : ℕ) (bombs : ItemStore Bomb) (ex : ItemStore Explosion)
      (players : List (ℕ × Player)) (rand : List ℚ) (now : ℤ), w.data.WF →
      wallsPreserved w (w.explodeBomb fuel bid bombs ex players rand now).1) ∧
    (∀ (w : World) (bombs : ItemStore Bomb) (player : Player) (now : ℤ), w.data.WF →
      wallsPreserved w (createBombForPlayer w bombs player now).1) :=
  ⟨fun width height config hok hok' hw hh q h0x hxw h0y hyh hwall =>
      getCell_worldNew_wall width height config hok hok' hw hh q h0x hxw h0y hyh hwall,
   fun w fuel bid bombs ex players rand now hWF =>
      World.explodeBomb_preserves w fuel bid bombs ex players rand now hWF,
   fun w bombs player now hWF => createBombForPlayer_preserves w bombs player now hWF⟩

theorem claim_C4_witness :
    (worldNew 5 5 gameConfigNew).getCell ⟨0, 0⟩ = some CellType.Wall ∧
    (cexWorldC1.explodeBomb 10 1 cexBombsC1 itemStoreNew cexPlayersC1 [] 0).1.getCell ⟨0, 0⟩
      = some CellType.Wall ∧
    (createBombForPlayer cexWorldC6 itemStoreNew cexPlayerC4 0).1.getCell ⟨0, 0⟩
      = some CellType.Wall := by
  refine ⟨?_, ?_, ?_⟩
  · exact claim_C4_amended.1 5 5 gameConfigNew (by decide) (by decide) (by decide) (by decide)
      ⟨0, 0⟩ (by decide) (by decide) (by decide) (by decide) (Or.inl rfl)
  · exact claim_C4_amended.2.1 cexWorldC1 10 1 cexBombsC1 itemStoreNew cexPlayersC1 [] 0
      (by decide) ⟨0, 0⟩ (by decide)
  · exact claim_C4_amended.2.2 cexWorldC6 itemStoreNew cexPlayerC4 0 (by decide) ⟨0, 0⟩
      (by decide)

/-- Claim C5: `set_mob_data(p, ts)` writes `ts` exactly when the cell is
clear or holds a later timestamp: afterwards the entry equals the minimum of
`ts` and the previous entry, so a later timestamp never replaces an earlier
one. -/
theorem claim_C5 : ∀ (w : World) (pos : MapPosition) (ts : ℤ),
    w.dataMob.WF → w.dataMob.inB pos →
    (w.setMobData pos ts).getMobData pos =
      some (match w.getMobData pos with
        | none => ts
        | some t0 => min ts t0) :=
  fun w pos ts hWF hin => getMobData_setMobData hWF pos hin ts

theorem claim_C5_witness :
    (cexWorldC6.setMobData ⟨1, 1⟩ 3).getMobData ⟨1, 1⟩ = some 3 :=
  (claim_C5 cexWorldC6 ⟨1, 1⟩ 3 (by decide) (by decide)).trans (by decide)

/-- Claim C6 (counterexample): start `(1,1)` with danger timestamp 5, sole
reachable neighbour `(2,1)` with the strictly later timestamp 50, range 1,
call time 100: every examined timestamp is in the past, so the fallback
(which only tracks timestamps later than the call time) returns the start
`(1,1)` and not the latest-timestamp cell `(2,1)`. -/
theorem claim_C6_cex :
    cexWorldC6.pathFindNearestSafeSpace cexAgentC6 ⟨1, 1⟩ 1 100 = ⟨1, 1⟩ ∧
    cexWorldC6.getMobData ⟨1, 1⟩ = some 5 ∧
    cexWorldC6.getMobData ⟨2, 1⟩ = some 50 ∧
    cexAgentC6 ⟨2, 1⟩ cexWorldC6 = true ∧
    ((5 : ℤ) < 50) := by
  decide

/-- Claim C6 (amended): when the danger entry at the start is `None` the
search returns the start itself; when any cell with no danger entry is
reachable from the start within `range` agent-passable steps (a walk
`p 0 = start, …, p k` of neighbour moves the agent can pass), the returned
cell has no danger entry; and in general the returned cell is the start, or
a cell whose danger entry is `None`, or a cell whose danger timestamp is
strictly later than the time of the call (the fallback tracker starts at
the current time, so past timestamps never displace the start and the
fallback is not the latest timestamp examined). -/
theorem claim_C6_amended : ∀ (w : World) (agent : MapPosition → World → Bool)
    (pos : MapPosition) (range : ℕ) (now : ℤ),
    (w.getMobData pos = none → w.pathFindNearestSafeSpace agent pos range now = pos) ∧
    (∀ (k : ℕ) (p : ℕ → MapPosition), p 0 = pos → k ≤ range →
      (∀ j, j < k →
        p (j + 1) ∈ [(p j).up 1, (p j).right 1, (p j).down 1, (p j).left 1] ∧
        agent (p (j + 1)) w = true) →
      w.getMobData (p k) = none →
      w.getMobData (w.pathFindNearestSafeSpace agent pos range now) = none) ∧
    (w.pathFindNearestSafeSpace agent pos range now = pos ∨
     w.getMobData (w.pathFindNearestSafeSpace agent pos range now) = none ∨
     ∃ ts, w.getMobData (w.pathFindNearestSafeSpace agent pos range now) = some ts ∧
       now < ts) :=
  fun w agent pos range now =>
    ⟨(pathFindNearestSafeSpace_cases w agent pos range now).1,
     fun k p hp0 hk hstep hsafe =>
       pathFindNearestSafeSpace_reach w agent pos range now k p hp0 hk hstep hsafe,
     (pathFindNearestSafeSpace_cases w agent pos range now).2⟩

theorem claim_C6_witness :
    cexWorldC6.pathFindNearestSafeSpace cexAgentC6 ⟨3, 5⟩ 1 100 = ⟨3, 5⟩ ∧
    cexWorldC6b.getMobData
      (cexWorldC6b.pathFindNearestSafeSpace cexAgentC6 ⟨1, 1⟩ 1 100) = none := by
  constructor
  · exact (claim_C6_amended cexWorldC6 cexAgentC6 ⟨3, 5⟩ 1 100).1 (by decide)
  · exact (claim_C6_amended cexWorldC6b cexAgentC6 ⟨1, 1⟩ 1 100).2.1 1
      (fun j => if j = 0 then ⟨1, 1⟩ else ⟨2, 1⟩) (by decide) (le_refl 1)
      (fun j hj => by
        have hj0 : j = 0 := by omega
        subst hj0
        exact ⟨by decide, by decide⟩)
      (by decide)

/-- Claim C7: when a detonation ray reaches a Mystery cell with random draw
`r ∈ [0,1)`, the cell becomes ItemBomb for `r > 0.9`, ItemRange for
`0.8 < r ≤ 0.9`, ItemRandom for `0.5 < r ≤ 0.8` and Empty otherwise; an
explosion is placed at that cell, exactly one draw is consumed, no other
cell changes and the ray stops (no cascade from this arm). -/
theorem claim_C7 : ∀ (now : ℤ) (bomb : Bomb) (off : PositionOffset) (rem : ℕ) (dist : ℤ)
    (w : World) (ex : ItemStore Explosion) (r : ℚ) (rest : List ℚ),
    w.data.WF →
    w.getCell (bomb.position.add (off.scale dist)) = some CellType.Mystery →
    0 ≤ r → r < 1 →
    ((explodeRayAux now bomb off (rem + 1) dist w ex (r :: rest)).1.getCell
        (bomb.position.add (off.scale dist)) = some (mysteryItemSpec r)) ∧
    (∀ q, q ≠ bomb.position.add (off.scale dist) →
      (explodeRayAux now bomb off (rem + 1) dist w ex (r :: rest)).1.getCell q
        = w.getCell q) ∧
    (∃ e : Explosion, (explodeRayAux now bomb off (rem + 1) dist w ex (r :: rest)).2.1.items
        = ex.items ++ [(ex.nextId, e)] ∧
      e.position = bomb.position.add (off.scale dist)) ∧
    ((explodeRayAux now bomb off (rem + 1) dist w ex (r :: rest)).2.2.1 = rest) ∧
    ((explodeRayAux now bomb off (rem + 1) dist w ex (r :: rest)).2.2.2 = []) := by
  intro now bomb off rem dist w ex r rest hWF hcell hr0 hr1
  have hred : explodeRayAux now bomb off (rem + 1) dist w ex (r :: rest)
      = ((w.addExplosion (explosionFromBombPos bomb (bomb.position.add (off.scale dist)) now)
          ex).1.setCell (bomb.position.add (off.scale dist)) (mysteryItemSpec r),
        (w.addExplosion (explosionFromBombPos bomb (bomb.position.add (off.scale dist)) now)
          ex).2, rest, []) := by
    unfold explodeRayAux
    dsimp only
    rw [hcell]
    dsimp only
    rw [show ((r :: rest).headD 0) = r from rfl, mysteryItem_code_eq_spec]
    rfl
  have hWF' : (w.addExplosion (explosionFromBombPos bomb
      (bomb.position.add (off.scale dist)) now) ex).1.data.WF := hWF
  have hin : (w.addExplosion (explosionFromBombPos bomb
      (bomb.position.add (off.scale dist)) now) ex).1.data.inB
      (bomb.position.add (off.scale dist)) := inB_of_getCell_some hcell
  refine ⟨?_, ?_, ?_, ?_, ?_⟩
  · rw [hred]
    dsimp only
    rw [World.getCell_setCell hWF']
    rw [if_pos ⟨rfl, hin⟩]
  · intro q hq
    rw [hred]
    dsimp only
    rw [World.getCell_setCell hWF']
    rw [if_neg (fun hcon => hq hcon.1)]
    rfl
  · rw [hred]
    exact ⟨{ explosionFromBombPos bomb (bomb.position.add (off.scale dist)) now with
      id := ex.nextId }, rfl, rfl⟩
  · rw [hred]
  · rw [hred]

theorem claim_C7_witness :
    ((explodeRayAux 0 cexBombC7 (PositionOffset.right 1) (0 + 1) 1 cexWorldC7 itemStoreNew
        ((3/5) :: [])).1.getCell
      (cexBombC7.position.add ((PositionOffset.right 1).scale 1))
      = some (mysteryItemSpec (3/5))) ∧
    ((explodeRayAux 0 cexBombC7 (PositionOffset.right 1) (0 + 1) 1 cexWorldC7 itemStoreNew
        ((3/5) :: [])).2.2.2 = []) := by
  have h := claim_C7 0 cexBombC7 (PositionOffset.right 1) 0 1 cexWorldC7 itemStoreNew (3/5) []
    (by decide) (by decide) (by norm_num) (by norm_num)
  exact ⟨h.1, h.2.2.2.2⟩

/-- Claim C8 (counterexample): the birth draw is uniform on the ten values
0..9 and the mob is smart when the draw exceeds 7, so exactly two outcomes
— not three — make it smart. -/
theorem claim_C8_cex :
    ¬ (((List.range 10).filter (fun r => (mobDefault r).serverData.smart)).length = 3) := by
  decide

/-- Claim C8 (amended): exactly 2 of the 10 equally likely birth draws
(`gen_range(0,10) > 7`) enable the smart flag — a 20% chance, not 30%. -/
theorem claim_C8_amended :
    ((List.range 10).filter (fun r => (mobDefault r).serverData.smart)).length = 2 := by
  decide

/-- Claim C9 (code bug): `sanitise_name` is built on an anchored pattern,
so `replace_all` only ever clears strings consisting entirely of disallowed
characters; the disallowed `@` in `"a@"` survives sanitisation, although the
spec (and the function name) promise that every character outside the
allowlist is removed. -/
theorem claim_C9_bug :
    sanitiseName "a@" = "a@" ∧ isDisallowedChar '@' = true := by
  decide

/-- Claim C10: converting an in-bounds tile to its centre pixel and back is
the identity, for any positive tile size (the engine always uses 32×32). -/
theorem claim_C10 : ∀ (w : World) (pos : MapPosition),
    0 < w.sizes.tileSize.width → 0 < w.sizes.tileSize.height →
    0 ≤ pos.x → 0 ≤ pos.y →
    (pixelFromMapPosition pos w).toMapPosition w = pos := by
  intro w pos htw hth hx hy
  unfold pixelFromMapPosition PixelPositionF64.toMapPosition
  dsimp only
  have hwne : ((w.sizes.tileSize.width : ℚ)) ≠ 0 := by
    exact_mod_cast htw.ne'
  have hhne : ((w.sizes.tileSize.height : ℚ)) ≠ 0 := by
    exact_mod_cast hth.ne'
  have h1 : ((pos.x : ℚ) * (w.sizes.tileSize.width : ℚ) + (w.sizes.tileSize.width : ℚ)/2)
      / (w.sizes.tileSize.width : ℚ) = (pos.x : ℚ) + 1/2 := by
    field_simp
    ring
  have h2 : ((pos.y : ℚ) * (w.sizes.tileSize.height : ℚ) + (w.sizes.tileSize.height : ℚ)/2)
      / (w.sizes.tileSize.height : ℚ) = (pos.y : ℚ) + 1/2 := by
    field_simp
    ring
  rw [h1, h2, ratTrunc_intCast_add_half hx, ratTrunc_intCast_add_half hy]

theorem claim_C10_witness :
    (pixelFromMapPosition ⟨2, 1⟩ cexWorldC6).toMapPosition cexWorldC6 = ⟨2, 1⟩ :=
  claim_C10 cexWorldC6 ⟨2, 1⟩ (by decide) (by decide) (by decide) (by decide)
